import Mathlib

/-!
# Velmor wiki: infobox codec, slug generator, search, ancestor walk, saving

A shallow embedding of the pure parts of the wiki's scripts.

From `src/wiki/admin.js`:

* the `sidebar_info` encoder of `savePage` (lines 292-305),
* `loadSidebarIntoBuilder` (lines 595-619),
* `slugify` (lines 112-121),
* `savePage` (lines 249-330), with the calls it makes to the store.

From `src/wiki/index.js`: `doSearch` (lines 230-300).

From `src/wiki/page.js`: `fetchParentChain` (lines 22-37).

JavaScript values are modelled by `JVal`; a JavaScript object is the list of
its own enumerable string-keyed properties in the order `Object.entries`
reports them.  Strings are sequences of Unicode scalar values, which agrees
with JavaScript's UTF-16 strings on text of the Basic Multilingual Plane;
where lengths and indices matter (the search) they are lists of UTF-16 code
units.  The store and the built-ins are parameters.
-/

namespace Velmor

/-! ## JavaScript values -/

/-- JavaScript values that can reach the infobox builder: the JSON values plus
`undefined`.  Numbers are restricted to integers. -/
inductive JVal where
  | undefined
  | null
  | bool (b : Bool)
  | num (n : Int)
  | str (s : String)
  | arr (items : List JVal)
  | obj (props : List (String × JVal))

namespace JVal

/-- JavaScript `ToBoolean`: `undefined`, `null`, `false`, `0` and `''` are
falsy, everything else (arrays and objects included) is truthy. -/
def truthy : JVal → Bool
  | undefined => false
  | null => false
  | bool b => b
  | num n => n != 0
  | str s => s != ""
  | arr _ => true
  | obj _ => true

/-- The expression `a || b`. -/
def orElse (a b : JVal) : JVal := if a.truthy then a else b

/-- The test `v === ''`. -/
def isEmptyStr : JVal → Bool
  | str s => s == ""
  | _ => false

/-- The test `typeof v === 'string'`. -/
def isStr : JVal → Bool
  | str _ => true
  | _ => false

/-- The test `typeof v === 'object'` (true for `null`, arrays and objects). -/
def typeofObject : JVal → Bool
  | null => true
  | arr _ => true
  | obj _ => true
  | _ => false

/-- Own property lookup in a property list. -/
def lookup (k : String) : List (String × JVal) → Option JVal
  | [] => none
  | (k', v) :: rest => if k' = k then some v else lookup k rest

/-- Member access `v.k` for the property names the codec reads (`title`,
`image`, `fields`, `key`, `value`), none of which is defined on a prototype:
`none` models the `TypeError` raised on `undefined` and `null`; an object
yields its own property or `undefined`; every other value yields `undefined`. -/
def getProp (v : JVal) (k : String) : Option JVal :=
  match v with
  | undefined => none
  | null => none
  | obj props => some ((lookup k props).getD undefined)
  | _ => some undefined

/-- Index/value pairs of a list, the indices written in decimal. -/
def indexed (mk : α → JVal) : Nat → List α → List (String × JVal)
  | _, [] => []
  | i, x :: xs => (toString i, mk x) :: indexed mk (i + 1) xs

/-- The call `Object.entries(v)` for a truthy `v`: the own enumerable
properties of an object in iteration order, the index/element pairs of an
array, the index/character pairs of a string, nothing for numbers and
booleans. -/
def objectEntries : JVal → List (String × JVal)
  | obj props => props
  | arr items => indexed id 0 items
  | str s => indexed (fun c => str (String.singleton c)) 0 s.data
  | _ => []

end JVal

open JVal

/-! ## Builder state -/

/-- One `{ key, value }` row of a builder section. -/
structure Field where
  key : JVal
  value : JVal

/-- One element of `builderState`: `{ title, image, fields }`. -/
structure Section where
  title : JVal
  image : JVal
  fields : List Field

/-- A well-formed field: string key and string value. -/
def Field.WF (f : Field) : Prop := f.key.isStr = true ∧ f.value.isStr = true

/-- A well-formed section: `title` and `image` are strings and every field is
well formed. -/
def Section.WF (sec : Section) : Prop :=
  sec.title.isStr = true ∧ sec.image.isStr = true ∧ ∀ f ∈ sec.fields, f.WF

/-! ## The save-time encoder (`savePage`, lines 292-305) -/

/-- The filter callback `f => f.key && (f.value || f.value === '')`. -/
def keepField (f : Field) : Bool :=
  f.key.truthy && (f.value.truthy || f.value.isEmptyStr)

/-- The map callback `f => ({ key: f.key, value: f.value })`. -/
def encodeField (f : Field) : JVal :=
  .obj [("key", f.key), ("value", f.value)]

/-- The callback of `builderState.map` (lines 293-302): properties are added
in the order `title`, `image`, `fields`, each under its own guard. -/
def encodeSection (sec : Section) : JVal :=
  .obj ((if sec.title.truthy then [("title", sec.title)] else []) ++
        (if sec.image.truthy then [("image", sec.image)] else []) ++
        (if sec.fields.length != 0 then
          [("fields", .arr ((sec.fields.filter keepField).map encodeField))]
         else []))

/-- The value stored under `sidebar_info` (lines 292-305). -/
def encodeSidebarInfo (builderState : List Section) : JVal :=
  let out := builderState.map encodeSection
  if out.length = 0 then .null
  else match out with
    | [o] => o
    | _ => .arr out

/-! ## The decoder (`loadSidebarIntoBuilder`, lines 595-619) -/

/-- Like `Array.prototype.map` with a callback that may throw: the first
`none` aborts the whole map. -/
def mapThrowing (f : α → Option β) : List α → Option (List β)
  | [] => some []
  | a :: as =>
    match f a with
    | none => none
    | some b =>
      match mapThrowing f as with
      | none => none
      | some bs => some (b :: bs)

/-- The callback `it => ({ key: it.key || '', value: it.value || '' })`. -/
def decodeField (it : JVal) : Option Field :=
  match it.getProp "key", it.getProp "value" with
  | some k, some v => some ⟨k.orElse (.str ""), v.orElse (.str "")⟩
  | _, _ => none

/-- The callback `([k,v]) => ({ key:k, value:v })`. -/
def entryField (kv : String × JVal) : Field := ⟨.str kv.1, kv.2⟩

/-- The `fields` expression of lines 605-607 and 613-615. -/
def decodeFields (fields : JVal) : Option (List Field) :=
  match fields with
  | .arr items => mapThrowing decodeField items
  | other => some ((objectEntries (other.orElse (.obj []))).map entryField)

/-- The section literal of lines 602-608 and 610-616. -/
def decodeSection (s : JVal) : Option Section :=
  match s.getProp "title", s.getProp "image", s.getProp "fields" with
  | some t, some i, some f =>
    match decodeFields f with
    | some fs => some ⟨t.orElse (.str ""), i.orElse (.str ""), fs⟩
    | none => none
  | _, _, _ => none

/-- The function `loadSidebarIntoBuilder`: the resulting `builderState`, or
`none` when a `TypeError` escapes (the caller, `selectPage`, swallows it).
`jsonParse` stands for the built-in `JSON.parse` applied to a value that is
not an object, `none` meaning that it throws. -/
def loadSidebarIntoBuilder (jsonParse : JVal → Option JVal) (value : JVal) :
    Option (List Section) :=
  if !value.truthy then some []
  else
    let parsed := if value.typeofObject then value else (jsonParse value).getD .null
    if !parsed.truthy then some []
    else match parsed with
      | .arr items => mapThrowing decodeSection items
      | _ => (decodeSection parsed).map fun sec => [sec]

/-- The test "the field has an empty key". -/
def Field.hasEmptyKey (f : Field) : Bool := f.key.isEmptyStr

/-- A section with the fields of empty key removed. -/
def Section.dropEmptyKeys (sec : Section) : Section :=
  { sec with fields := sec.fields.filter fun f => !f.hasEmptyKey }

/-! ## The slug generator (`slugify`, lines 112-121) -/

/-- The class `\s` of a JavaScript regular expression: tab, line feed,
vertical tab, form feed, carriage return, space, no-break space, U+1680,
U+2000 to U+200A, the line and paragraph separators, U+202F, U+205F, U+3000
and the byte order mark. -/
def isSpace (c : Char) : Bool :=
  let n := c.toNat
  (9 ≤ n && n ≤ 13) || n == 0x20 || n == 0xA0 || n == 0x1680 ||
  (0x2000 ≤ n && n ≤ 0x200A) || n == 0x2028 || n == 0x2029 || n == 0x202F ||
  n == 0x205F || n == 0x3000 || n == 0xFEFF

/-- The class `[a-z0-9-_]`: the letters U+0061 to U+007A, the digits U+0030 to
U+0039, the hyphen and the underscore. -/
def isSlugChar (c : Char) : Bool :=
  (0x61 ≤ c.toNat && c.toNat ≤ 0x7A) || (0x30 ≤ c.toNat && c.toNat ≤ 0x39) ||
  c == '-' || c == '_'

/-- The test "the character is a hyphen". -/
def isDash (c : Char) : Bool := c == '-'

/-- The step `.replace(/\s+/g, '-')`: every maximal run of white space becomes
one hyphen.  The flag tells whether the previous character was white space, so
that the hyphen is written at the first character of a run only. -/
def spacesToDash : Bool → List Char → List Char
  | _, [] => []
  | inRun, c :: cs =>
    if isSpace c then
      if inRun then spacesToDash true cs else '-' :: spacesToDash true cs
    else c :: spacesToDash false cs

/-- The step `.replace(/[^a-z0-9-_]/g, '')`. -/
def removeInvalid (l : List Char) : List Char := l.filter isSlugChar

/-- The step `.replace` with the global pattern `--+` and the replacement
`'-'`: of every maximal run of two or more
hyphens only the first stays (a lone hyphen is not matched and stays too).
The flag tells whether the previous character was a hyphen. -/
def collapseDashes : Bool → List Char → List Char
  | _, [] => []
  | afterDash, c :: cs =>
    if isDash c then
      if afterDash then collapseDashes true cs else c :: collapseDashes true cs
    else c :: collapseDashes false cs

/-- The step `.replace(/^-+|-+$/g, '')`: the leading and the trailing run of
hyphens are removed. -/
def trimDashes (l : List Char) : List Char :=
  (l.dropWhile isDash).rdropWhile isDash

/-- The regular-expression steps of `slugify`, in source order. -/
def slugSteps (l : List Char) : List Char :=
  trimDashes (collapseDashes false (removeInvalid (spacesToDash false l)))

/-- The function `slugify`.  The built-ins `String.prototype.toLowerCase` and
`String.prototype.normalize('NFKD')` are parameters; `toString` is the
identity on strings. -/
def slugify (toLowerCase normalizeNFKD : String → String) (text : String) : String :=
  ⟨slugSteps (normalizeNFKD (toLowerCase text)).data⟩

/-! ### The built-ins on U+0000 to U+017F

Excerpts of the Unicode character database (Basic Latin, Latin-1 Supplement,
Latin Extended-A), used to run `slugify` on concrete Latin text.  On strings
of characters up to U+017F they agree with the JavaScript built-ins; other
characters are left unchanged, which the built-ins do not always do. -/

/-- Lower-case mappings of the characters up to U+017F that have one. -/
def lowerTable : List (Nat × List Nat) :=
  [(0x0041, [0x0061]), (0x0042, [0x0062]), (0x0043, [0x0063]), (0x0044, [0x0064]),
   (0x0045, [0x0065]), (0x0046, [0x0066]), (0x0047, [0x0067]), (0x0048, [0x0068]),
   (0x0049, [0x0069]), (0x004A, [0x006A]), (0x004B, [0x006B]), (0x004C, [0x006C]),
   (0x004D, [0x006D]), (0x004E, [0x006E]), (0x004F, [0x006F]), (0x0050, [0x0070]),
   (0x0051, [0x0071]), (0x0052, [0x0072]), (0x0053, [0x0073]), (0x0054, [0x0074]),
   (0x0055, [0x0075]), (0x0056, [0x0076]), (0x0057, [0x0077]), (0x0058, [0x0078]),
   (0x0059, [0x0079]), (0x005A, [0x007A]), (0x00C0, [0x00E0]), (0x00C1, [0x00E1]),
   (0x00C2, [0x00E2]), (0x00C3, [0x00E3]), (0x00C4, [0x00E4]), (0x00C5, [0x00E5]),
   (0x00C6, [0x00E6]), (0x00C7, [0x00E7]), (0x00C8, [0x00E8]), (0x00C9, [0x00E9]),
   (0x00CA, [0x00EA]), (0x00CB, [0x00EB]), (0x00CC, [0x00EC]), (0x00CD, [0x00ED]),
   (0x00CE, [0x00EE]), (0x00CF, [0x00EF]), (0x00D0, [0x00F0]), (0x00D1, [0x00F1]),
   (0x00D2, [0x00F2]), (0x00D3, [0x00F3]), (0x00D4, [0x00F4]), (0x00D5, [0x00F5]),
   (0x00D6, [0x00F6]), (0x00D8, [0x00F8]), (0x00D9, [0x00F9]), (0x00DA, [0x00FA]),
   (0x00DB, [0x00FB]), (0x00DC, [0x00FC]), (0x00DD, [0x00FD]), (0x00DE, [0x00FE]),
   (0x0100, [0x0101]), (0x0102, [0x0103]), (0x0104, [0x0105]), (0x0106, [0x0107]),
   (0x0108, [0x0109]), (0x010A, [0x010B]), (0x010C, [0x010D]), (0x010E, [0x010F]),
   (0x0110, [0x0111]), (0x0112, [0x0113]), (0x0114, [0x0115]), (0x0116, [0x0117]),
   (0x0118, [0x0119]), (0x011A, [0x011B]), (0x011C, [0x011D]), (0x011E, [0x011F]),
   (0x0120, [0x0121]), (0x0122, [0x0123]), (0x0124, [0x0125]), (0x0126, [0x0127]),
   (0x0128, [0x0129]), (0x012A, [0x012B]), (0x012C, [0x012D]), (0x012E, [0x012F]),
   (0x0130, [0x0069, 0x0307]), (0x0132, [0x0133]), (0x0134, [0x0135]), (0x0136, [0x0137]),
   (0x0139, [0x013A]), (0x013B, [0x013C]), (0x013D, [0x013E]), (0x013F, [0x0140]),
   (0x0141, [0x0142]), (0x0143, [0x0144]), (0x0145, [0x0146]), (0x0147, [0x0148]),
   (0x014A, [0x014B]), (0x014C, [0x014D]), (0x014E, [0x014F]), (0x0150, [0x0151]),
   (0x0152, [0x0153]), (0x0154, [0x0155]), (0x0156, [0x0157]), (0x0158, [0x0159]),
   (0x015A, [0x015B]), (0x015C, [0x015D]), (0x015E, [0x015F]), (0x0160, [0x0161]),
   (0x0162, [0x0163]), (0x0164, [0x0165]), (0x0166, [0x0167]), (0x0168, [0x0169]),
   (0x016A, [0x016B]), (0x016C, [0x016D]), (0x016E, [0x016F]), (0x0170, [0x0171]),
   (0x0172, [0x0173]), (0x0174, [0x0175]), (0x0176, [0x0177]), (0x0178, [0x00FF]),
   (0x0179, [0x017A]), (0x017B, [0x017C]), (0x017D, [0x017E])]

/-- Compatibility decompositions (NFKD) of the characters up to U+017F that
have one. -/
def nfkdTable : List (Nat × List Nat) :=
  [(0x00A0, [0x0020]), (0x00A8, [0x0020, 0x0308]), (0x00AA, [0x0061]),
   (0x00AF, [0x0020, 0x0304]), (0x00B2, [0x0032]), (0x00B3, [0x0033]),
   (0x00B4, [0x0020, 0x0301]), (0x00B5, [0x03BC]), (0x00B8, [0x0020, 0x0327]),
   (0x00B9, [0x0031]), (0x00BA, [0x006F]), (0x00BC, [0x0031, 0x2044, 0x0034]),
   (0x00BD, [0x0031, 0x2044, 0x0032]), (0x00BE, [0x0033, 0x2044, 0x0034]),
   (0x00C0, [0x0041, 0x0300]), (0x00C1, [0x0041, 0x0301]), (0x00C2, [0x0041, 0x0302]),
   (0x00C3, [0x0041, 0x0303]), (0x00C4, [0x0041, 0x0308]), (0x00C5, [0x0041, 0x030A]),
   (0x00C7, [0x0043, 0x0327]), (0x00C8, [0x0045, 0x0300]), (0x00C9, [0x0045, 0x0301]),
   (0x00CA, [0x0045, 0x0302]), (0x00CB, [0x0045, 0x0308]), (0x00CC, [0x0049, 0x0300]),
   (0x00CD, [0x0049, 0x0301]), (0x00CE, [0x0049, 0x0302]), (0x00CF, [0x0049, 0x0308]),
   (0x00D1, [0x004E, 0x0303]), (0x00D2, [0x004F, 0x0300]), (0x00D3, [0x004F, 0x0301]),
   (0x00D4, [0x004F, 0x0302]), (0x00D5, [0x004F, 0x0303]), (0x00D6, [0x004F, 0x0308]),
   (0x00D9, [0x0055, 0x0300]), (0x00DA, [0x0055, 0x0301]), (0x00DB, [0x0055, 0x0302]),
   (0x00DC, [0x0055, 0x0308]), (0x00DD, [0x0059, 0x0301]), (0x00E0, [0x0061, 0x0300]),
   (0x00E1, [0x0061, 0x0301]), (0x00E2, [0x0061, 0x0302]), (0x00E3, [0x0061, 0x0303]),
   (0x00E4, [0x0061, 0x0308]), (0x00E5, [0x0061, 0x030A]), (0x00E7, [0x0063, 0x0327]),
   (0x00E8, [0x0065, 0x0300]), (0x00E9, [0x0065, 0x0301]), (0x00EA, [0x0065, 0x0302]),
   (0x00EB, [0x0065, 0x0308]), (0x00EC, [0x0069, 0x0300]), (0x00ED, [0x0069, 0x0301]),
   (0x00EE, [0x0069, 0x0302]), (0x00EF, [0x0069, 0x0308]), (0x00F1, [0x006E, 0x0303]),
   (0x00F2, [0x006F, 0x0300]), (0x00F3, [0x006F, 0x0301]), (0x00F4, [0x006F, 0x0302]),
   (0x00F5, [0x006F, 0x0303]), (0x00F6, [0x006F, 0x0308]), (0x00F9, [0x0075, 0x0300]),
   (0x00FA, [0x0075, 0x0301]), (0x00FB, [0x0075, 0x0302]), (0x00FC, [0x0075, 0x0308]),
   (0x00FD, [0x0079, 0x0301]), (0x00FF, [0x0079, 0x0308]), (0x0100, [0x0041, 0x0304]),
   (0x0101, [0x0061, 0x0304]), (0x0102, [0x0041, 0x0306]), (0x0103, [0x0061, 0x0306]),
   (0x0104, [0x0041, 0x0328]), (0x0105, [0x0061, 0x0328]), (0x0106, [0x0043, 0x0301]),
   (0x0107, [0x0063, 0x0301]), (0x0108, [0x0043, 0x0302]), (0x0109, [0x0063, 0x0302]),
   (0x010A, [0x0043, 0x0307]), (0x010B, [0x0063, 0x0307]), (0x010C, [0x0043, 0x030C]),
   (0x010D, [0x0063, 0x030C]), (0x010E, [0x0044, 0x030C]), (0x010F, [0x0064, 0x030C]),
   (0x0112, [0x0045, 0x0304]), (0x0113, [0x0065, 0x0304]), (0x0114, [0x0045, 0x0306]),
   (0x0115, [0x0065, 0x0306]), (0x0116, [0x0045, 0x0307]), (0x0117, [0x0065, 0x0307]),
   (0x0118, [0x0045, 0x0328]), (0x0119, [0x0065, 0x0328]), (0x011A, [0x0045, 0x030C]),
   (0x011B, [0x0065, 0x030C]), (0x011C, [0x0047, 0x0302]), (0x011D, [0x0067, 0x0302]),
   (0x011E, [0x0047, 0x0306]), (0x011F, [0x0067, 0x0306]), (0x0120, [0x0047, 0x0307]),
   (0x0121, [0x0067, 0x0307]), (0x0122, [0x0047, 0x0327]), (0x0123, [0x0067, 0x0327]),
   (0x0124, [0x0048, 0x0302]), (0x0125, [0x0068, 0x0302]), (0x0128, [0x0049, 0x0303]),
   (0x0129, [0x0069, 0x0303]), (0x012A, [0x0049, 0x0304]), (0x012B, [0x0069, 0x0304]),
   (0x012C, [0x0049, 0x0306]), (0x012D, [0x0069, 0x0306]), (0x012E, [0x0049, 0x0328]),
   (0x012F, [0x0069, 0x0328]), (0x0130, [0x0049, 0x0307]), (0x0132, [0x0049, 0x004A]),
   (0x0133, [0x0069, 0x006A]), (0x0134, [0x004A, 0x0302]), (0x0135, [0x006A, 0x0302]),
   (0x0136, [0x004B, 0x0327]), (0x0137, [0x006B, 0x0327]), (0x0139, [0x004C, 0x0301]),
   (0x013A, [0x006C, 0x0301]), (0x013B, [0x004C, 0x0327]), (0x013C, [0x006C, 0x0327]),
   (0x013D, [0x004C, 0x030C]), (0x013E, [0x006C, 0x030C]), (0x013F, [0x004C, 0x00B7]),
   (0x0140, [0x006C, 0x00B7]), (0x0143, [0x004E, 0x0301]), (0x0144, [0x006E, 0x0301]),
   (0x0145, [0x004E, 0x0327]), (0x0146, [0x006E, 0x0327]), (0x0147, [0x004E, 0x030C]),
   (0x0148, [0x006E, 0x030C]), (0x0149, [0x02BC, 0x006E]), (0x014C, [0x004F, 0x0304]),
   (0x014D, [0x006F, 0x0304]), (0x014E, [0x004F, 0x0306]), (0x014F, [0x006F, 0x0306]),
   (0x0150, [0x004F, 0x030B]), (0x0151, [0x006F, 0x030B]), (0x0154, [0x0052, 0x0301]),
   (0x0155, [0x0072, 0x0301]), (0x0156, [0x0052, 0x0327]), (0x0157, [0x0072, 0x0327]),
   (0x0158, [0x0052, 0x030C]), (0x0159, [0x0072, 0x030C]), (0x015A, [0x0053, 0x0301]),
   (0x015B, [0x0073, 0x0301]), (0x015C, [0x0053, 0x0302]), (0x015D, [0x0073, 0x0302]),
   (0x015E, [0x0053, 0x0327]), (0x015F, [0x0073, 0x0327]), (0x0160, [0x0053, 0x030C]),
   (0x0161, [0x0073, 0x030C]), (0x0162, [0x0054, 0x0327]), (0x0163, [0x0074, 0x0327]),
   (0x0164, [0x0054, 0x030C]), (0x0165, [0x0074, 0x030C]), (0x0168, [0x0055, 0x0303]),
   (0x0169, [0x0075, 0x0303]), (0x016A, [0x0055, 0x0304]), (0x016B, [0x0075, 0x0304]),
   (0x016C, [0x0055, 0x0306]), (0x016D, [0x0075, 0x0306]), (0x016E, [0x0055, 0x030A]),
   (0x016F, [0x0075, 0x030A]), (0x0170, [0x0055, 0x030B]), (0x0171, [0x0075, 0x030B]),
   (0x0172, [0x0055, 0x0328]), (0x0173, [0x0075, 0x0328]), (0x0174, [0x0057, 0x0302]),
   (0x0175, [0x0077, 0x0302]), (0x0176, [0x0059, 0x0302]), (0x0177, [0x0079, 0x0302]),
   (0x0178, [0x0059, 0x0308]), (0x0179, [0x005A, 0x0301]), (0x017A, [0x007A, 0x0301]),
   (0x017B, [0x005A, 0x0307]), (0x017C, [0x007A, 0x0307]), (0x017D, [0x005A, 0x030C]),
   (0x017E, [0x007A, 0x030C]), (0x017F, [0x0073])]

/-- Table lookup. -/
def lookupTable (n : Nat) : List (Nat × List Nat) → Option (List Nat)
  | [] => none
  | (k, v) :: rest => if k = n then some v else lookupTable n rest

/-- A character replaced by its table entry, or kept when it has none. -/
def mapChar (table : List (Nat × List Nat)) (c : Char) : List Char :=
  match lookupTable c.toNat table with
  | some v => v.map Char.ofNat
  | none => [c]

/-- The built-in `toLowerCase` on text up to U+017F. -/
def toLowerCaseLatin (s : String) : String := ⟨s.data.flatMap (mapChar lowerTable)⟩

/-- The built-in `normalize('NFKD')` on text up to U+017F. -/
def normalizeNFKDLatin (s : String) : String := ⟨s.data.flatMap (mapChar nfkdTable)⟩

/-! ### Decomposed words -/

/-- A letter after lower-casing and decomposition: a base character followed
by its combining marks. -/
structure Glyph where
  base : Char
  marks : List Char
  deriving DecidableEq

/-- The characters of a decomposed word. -/
def wordChars (w : List Glyph) : List Char := w.flatMap fun g => g.base :: g.marks

/-- The base characters of a decomposed word. -/
def wordBases (w : List Glyph) : List Char := w.map Glyph.base

/-- The class `[a-z0-9]`: ASCII lower-case letters and digits. -/
def isBase (c : Char) : Bool :=
  (0x61 ≤ c.toNat && c.toNat ≤ 0x7A) || (0x30 ≤ c.toNat && c.toNat ≤ 0x39)

/-- A decomposed word is valid when it is non-empty, every base is an ASCII
lower-case letter or digit, and every mark lies outside `[a-z0-9-_]` and is
not white space (as is the case of the combining marks). -/
def validWord (w : List Glyph) : Prop :=
  w ≠ [] ∧ ∀ g ∈ w, isBase g.base = true ∧
    ∀ m ∈ g.marks, isSlugChar m = false ∧ isSpace m = false

/-- A glyph without marks. -/
def plain (c : Char) : Glyph := ⟨c, []⟩

/-- The decomposed word "orta". -/
def ortaWord : List Glyph := [plain 'o', plain 'r', plain 't', plain 'a']

/-- The decomposed word "çağ": c with cedilla (U+0327), a, g with breve
(U+0306). -/
def cagWord : List Glyph := [⟨'c', [Char.ofNat 0x327]⟩, plain 'a', ⟨'g', [Char.ofNat 0x306]⟩]

/-- The decomposed word "tarihi". -/
def tarihiWord : List Glyph :=
  [plain 't', plain 'a', plain 'r', plain 'i', plain 'h', plain 'i']

/-- The test "the field has a non-empty string key and its value is present",
a present value being a string (the empty one included), an absent one any
other value (`undefined` and `null` in particular). -/
def Field.keyedAndPresent (f : Field) : Bool :=
  match f.key, f.value with
  | .str k, .str _ => k != ""
  | _, _ => false

/-- The test "the object `v` has an own property named `k`". -/
def JVal.hasKey (k : String) : JVal → Bool
  | .obj props => (JVal.lookup k props).isSome
  | _ => false

/-- Two sample sections: the first has a field with an empty key. -/
def sampleSections : List Section :=
  [⟨.str "Genel", .str "", [⟨.str "Tür", .str "Ejderha"⟩, ⟨.str "", .str "x"⟩]⟩,
   ⟨.str "", .str "a.png", []⟩]

/-- A section with a title and one field. -/
def sampleSection : Section :=
  ⟨.str "Genel", .str "", [⟨.str "Tür", .str "Ejderha"⟩]⟩

/-- A section as the "add section" button creates it: nothing filled in. -/
def blankSection : Section := ⟨.str "", .str "", []⟩

/-- A blank section after one press of its "add field" button. -/
def blankFieldSection : Section := ⟨.str "", .str "", [⟨.str "", .str ""⟩]⟩

/-- A section whose second field has no value. -/
def absentValueSection : Section :=
  ⟨.str "", .str "", [⟨.str "a", .str ""⟩, ⟨.str "b", .undefined⟩, ⟨.str "", .str "c"⟩]⟩

/-- A stored section in the legacy shape: `fields` is a mapping. -/
def legacyProps : List (String × JVal) :=
  [("title", .str "Genel"), ("fields", .obj [("Tür", .str "Ejderha"), ("Yaş", .num 300)])]

/-! ## Search (`doSearch`, `src/wiki/index.js` lines 230-300)

Lengths, indices and substrings of JavaScript strings count UTF-16 code
units, so the strings of the search are modelled as lists of code units. -/

/-- A JavaScript string as the list of its UTF-16 code units. -/
abbrev JStr := List Nat

/-- The code units of a string: one unit for a character of the Basic
Multilingual Plane, a surrogate pair for any other. -/
def utf16 (s : String) : JStr :=
  s.data.flatMap fun c =>
    if c.toNat < 0x10000 then [c.toNat]
    else [0xD800 + (c.toNat - 0x10000) / 0x400, 0xDC00 + (c.toNat - 0x10000) % 0x400]

/-- The expression `x || ''` for `x` a string or `null`. -/
def orEmpty : Option JStr → JStr
  | some s => s
  | none => []

/-- Truthiness of a string or `null`: the non-empty strings. -/
def strTruthy : Option JStr → Bool
  | some s => !s.isEmpty
  | none => false

/-- The search `hay.indexOf(needle)` from position `k` on: the least index at
which `needle` starts, `-1` when there is none. -/
def indexOfFrom (needle : JStr) : Nat → JStr → Int
  | k, [] => if needle.isEmpty then (k : Int) else -1
  | k, c :: cs =>
    if needle.isPrefixOf (c :: cs) then (k : Int) else indexOfFrom needle (k + 1) cs

/-- The call `hay.indexOf(needle)`. -/
def indexOf (hay needle : JStr) : Int := indexOfFrom needle 0 hay

/-- The call `hay.includes(needle)`. -/
def includes (hay needle : JStr) : Bool := decide (0 ≤ indexOf hay needle)

/-- The call `s.substring(a, b)` for non-negative `a` and `b`: both are
clamped to the length and swapped when `a > b`. -/
def substring (s : JStr) (a b : Nat) : JStr :=
  let a := min a s.length
  let b := min b s.length
  (s.drop (min a b)).take (max a b - min a b)

/-- The step `.replace` with the global pattern `<[^>]+>` and the empty
replacement: every `<`, followed by at least one unit other than `>` and then
by `>`, is removed with all of it.  The state is `none` outside a tag and
`some buf` after an open `<`, `buf` holding the units read since, last first;
a `<` that never gets its `>` stays, with what follows it. -/
def stripTagsAux : Option JStr → JStr → JStr
  | none, [] => []
  | some buf, [] => 60 :: buf.reverse
  | none, c :: cs =>
    if c = 60 then stripTagsAux (some []) cs else c :: stripTagsAux none cs
  | some buf, c :: cs =>
    if c = 62 then
      if buf.isEmpty then 60 :: 62 :: stripTagsAux none cs else stripTagsAux none cs
    else stripTagsAux (some (c :: buf)) cs

/-- The step `.replace` with the global pattern `<[^>]+>`. -/
def stripTags (s : JStr) : JStr := stripTagsAux none s

/-- The literal `'...'`. -/
def dots : JStr := [46, 46, 46]

/-- A candidate row of the fallback query: the columns `title, slug,
updated_at, content`, each a string or `null`. -/
structure SearchPage where
  title : Option JStr
  slug : Option JStr
  updated_at : Option JStr
  content : Option JStr
  deriving DecidableEq

/-- A row of the `search_pages` RPC: `{ title, slug, updated_at, snippet }`. -/
structure SearchRow where
  title : Option JStr
  slug : Option JStr
  updated_at : Option JStr
  snippet : Option JStr
  deriving DecidableEq

/-- An entry of the fallback result: `{ title, slug, updated_at, excerpt }`;
it has no score. -/
structure SearchHit where
  title : Option JStr
  slug : Option JStr
  updated_at : Option JStr
  excerpt : JStr
  deriving DecidableEq

/-- An entry before the score is dropped. -/
structure ScoredHit where
  hit : SearchHit
  score : ℚ

/-- The built-ins the search calls.  `matchCount pattern subject` is the value
of `(subject.match(new RegExp(pattern, 'g')) || []).length`, `none` when
`RegExp` throws a `SyntaxError`.  `addRecency score u` is the floating-point
value of `score + (new Date(u).getTime() / (1000 * 60 * 60 * 24)) * 0.001`,
a finite double and so a rational number. -/
structure SearchEnv where
  toLowerCase : JStr → JStr
  matchCount : JStr → JStr → Option Nat
  addRecency : Int → JStr → ℚ

/-- The integer part of the score (lines 278-285): exact title match, title
match position, content matches; `none` when `RegExp` throws. -/
def baseScore (env : SearchEnv) (query : JStr) (p : SearchPage) : Option Int :=
  let title := env.toLowerCase (orEmpty p.title)
  let content := env.toLowerCase (orEmpty p.content)
  let score : Int := if title = query then 300 else 0
  let titleIndex := indexOf title query
  let score : Int := if 0 ≤ titleIndex then score + (220 - max 0 titleIndex) else score
  match env.matchCount query content with
  | none => none
  | some contentCount => some (score + (contentCount : Int) * 10)

/-- The score of a candidate (lines 278-286). -/
def fallbackScore (env : SearchEnv) (query : JStr) (p : SearchPage) : Option ℚ :=
  match baseScore env query p with
  | none => none
  | some score =>
    some (if strTruthy p.updated_at then env.addRecency score (orEmpty p.updated_at)
      else (score : ℚ))

/-- The excerpt of a candidate (lines 288-295); `q` is the query as typed,
`query` its lower-case form. -/
def buildExcerpt (env : SearchEnv) (q query : JStr) (p : SearchPage) : JStr :=
  let content := env.toLowerCase (orEmpty p.content)
  let idx := indexOf content query
  if 0 ≤ idx then
    let start := (idx - 60).toNat
    let excerpt := stripTags
      (substring (orEmpty p.content) start (min (start + 180) (orEmpty p.content).length))
    let excerpt := if 0 < start then dots ++ excerpt else excerpt
    if idx + (q.length : Int) < ((orEmpty p.content).length : Int) then excerpt ++ dots
    else excerpt
  else []

/-- The callback of `data.map` (lines 277-296). -/
def scoreEntry (env : SearchEnv) (q : JStr) (p : SearchPage) : Option ScoredHit :=
  match fallbackScore env (env.toLowerCase q) p with
  | none => none
  | some score =>
    some ⟨⟨p.title, p.slug, p.updated_at, buildExcerpt env q (env.toLowerCase q) p⟩, score⟩

/-- The built-in `Array.prototype.sort` with a consistent comparator: a stable
sort (ECMAScript 2019) that puts `a` before `b` when `cmp a b ≤ 0`, modelled
by insertion sort. -/
def jsSort (cmp : α → α → ℚ) (l : List α) : List α :=
  l.insertionSort fun a b => cmp a b ≤ 0

/-- The fallback ranking (lines 276-297): score, sort by `b.score - a.score`,
keep 20, drop the score; `none` when `RegExp` throws. -/
def fallbackResults (env : SearchEnv) (q : JStr) (data : List SearchPage) :
    Option (List SearchHit) :=
  match mapThrowing (scoreEntry env q) data with
  | none => none
  | some scored =>
    some (((jsSort (fun a b => b.score - a.score) scored).take 20).map ScoredHit.hit)

/-- The flag `(a.title || '').toLowerCase().includes(ql) ? 1 : 0`. -/
def titleFlag (env : SearchEnv) (ql : JStr) (a : SearchRow) : Int :=
  if includes (env.toLowerCase (orEmpty a.title)) ql then 1 else 0

/-- The comparator of the RPC path (lines 248-254). -/
def rpcCompare (env : SearchEnv) (ql : JStr) (a b : SearchRow) : ℚ :=
  if titleFlag env ql a ≠ titleFlag env ql b then
    ((titleFlag env ql b - titleFlag env ql a : Int) : ℚ)
  else 0

/-- A call that `doSearch` makes to the store. -/
inductive SearchCall where
  | rpcSearch (q : JStr)
  | ilikeSearch (like : JStr)
  deriving DecidableEq

/-- What the results container shows when `doSearch` is over. -/
inductive SearchView where
  | needMoreChars
  | searching
  | rows (items : List SearchRow)
  | hits (items : List SearchHit)
  | failed (message : JStr)
  | nothingFound
  deriving DecidableEq

/-- The answers of the store: `rpcSearch q` is the `data` of the
`search_pages` call when it is an array and `none` otherwise (also when the
call throws); `ilikeSearch like` is the error message or the `data`, which may
be `null`, of the fallback query. -/
structure SearchStore where
  rpcSearch : JStr → Option (List SearchRow)
  ilikeSearch : JStr → Except JStr (Option (List SearchPage))

/-- The function `doSearch`: the calls made to the store, in order, and the
final view.  The view stays `searching` when `RegExp` throws. -/
def doSearch (env : SearchEnv) (store : SearchStore) (q : JStr) :
    List SearchCall × SearchView :=
  if q.isEmpty || decide (q.length < 3) then ([], .needMoreChars)
  else
    let rows := store.rpcSearch q
    if (rows.getD []).length ≠ 0 then
      ([.rpcSearch q],
        .rows ((jsSort (rpcCompare env (env.toLowerCase q)) (rows.getD [])).take 20))
    else
      let like := 37 :: (q ++ [37])
      let calls := [SearchCall.rpcSearch q, SearchCall.ilikeSearch like]
      match store.ilikeSearch like with
      | .error message => (calls, .failed message)
      | .ok none => (calls, .nothingFound)
      | .ok (some data) =>
        if data.length = 0 then (calls, .nothingFound)
        else match fallbackResults env q data with
          | none => (calls, .searching)
          | some scored => (calls, .hits scored)

/-! ### Sample built-ins and inputs for the search -/

/-- The built-in `toLowerCase` on code units up to U+017F (see `lowerTable`). -/
def toLowerCaseUnits (s : JStr) : JStr :=
  s.flatMap fun n => (lookupTable n lowerTable).getD [n]

/-- The test "the pattern matches at the start of the subject", for a pattern
of literal units and dots; a dot matches every unit but a line terminator. -/
def matchesHere : JStr → JStr → Bool
  | [], _ => true
  | _ :: _, [] => false
  | p :: ps, c :: cs =>
    (if p = 46 then !(c = 10 || c = 13 || c = 0x2028 || c = 0x2029) else p = c) &&
      matchesHere ps cs

/-- Number of matches of a global pattern of literal units and dots: a match
is counted at the first position where there is one and the search goes on
behind it.  The first argument is the number of units still covered by the
last match. -/
def countMatches (pattern : JStr) : Nat → JStr → Nat
  | _, [] => if pattern.isEmpty then 1 else 0
  | skip + 1, _ :: cs => countMatches pattern skip cs
  | 0, c :: cs =>
    if matchesHere pattern (c :: cs) then 1 + countMatches pattern (pattern.length - 1) cs
    else countMatches pattern 0 cs

/-- The test "the unit is a pattern character other than the dot". -/
def isRegexSpecial (n : Nat) : Bool :=
  [92, 94, 36, 42, 43, 63, 40, 41, 91, 93, 123, 125, 124].contains n

/-- The built-in match count for patterns of literal units and dots.  Other
patterns are outside this model and get `none`. -/
def matchCountSimple (pattern subject : JStr) : Option Nat :=
  if pattern.any isRegexSpecial then none else some (countMatches pattern 0 subject)

/-- Sample built-ins: Latin lower-casing, patterns of literals and dots, and a
recency term taken as zero (no sample page has `updated_at`). -/
def sampleEnv : SearchEnv := ⟨toLowerCaseUnits, matchCountSimple, fun score _ => score⟩

/-- The first candidate of the ranking example. -/
def dragonLore : SearchPage := ⟨some (utf16 "Dragon Lore"), none, none, some (utf16 "...")⟩

/-- The second candidate of the ranking example. -/
def loreOfTheDragon : SearchPage :=
  ⟨some (utf16 "Lore of the Dragon"), none, none, some (utf16 "dragon dragon")⟩

/-- A store whose RPC gives nothing and whose fallback query gives the two
candidates of the ranking example. -/
def dragonStore : SearchStore :=
  ⟨fun _ => none, fun _ => .ok (some [dragonLore, loreOfTheDragon])⟩

/-- A sample RPC row with the given title. -/
def titledRow (title : String) : SearchRow := ⟨some (utf16 title), none, none, none⟩

/-- A store whose RPC gives four rows, the second and the fourth with a title
that contains `dragon`. -/
def rpcStore : SearchStore :=
  ⟨fun _ => some [titledRow "Lore", titledRow "Dragon Lore", titledRow "Tale",
      titledRow "The dragon"],
    fun _ => .ok none⟩

/-- A candidate whose content is seventy `x` followed by `dragon`. -/
def longPage : SearchPage :=
  ⟨some (utf16 "Long"), none, none, some (List.replicate 70 120 ++ utf16 "dragon")⟩

/-- A candidate whose content holds a tag before the match and text after. -/
def taggedPage : SearchPage :=
  ⟨some (utf16 "Tagged"), none, none, some (utf16 "<p>A <b>dragon</b> sleeps</p>")⟩

/-- A candidate found through its title by the query `...`. -/
def waitPage : SearchPage := ⟨some (utf16 "Wait..."), none, none, some (utf16 "abcdef")⟩

/-- Number of occurrences of a literal needle, counted from the left without
overlap. -/
def literalCount (needle : JStr) : Nat → JStr → Nat
  | _, [] => if needle.isEmpty then 1 else 0
  | skip + 1, _ :: cs => literalCount needle skip cs
  | 0, c :: cs =>
    if needle.isPrefixOf (c :: cs) then 1 + literalCount needle (needle.length - 1) cs
    else literalCount needle 0 cs

/-- The score formula in the words of the specification: 300 for an exact
title match, 220 minus the index of the first title match, 10 per literal
occurrence of the query in the content, all case-insensitive. -/
def specScore (env : SearchEnv) (q : JStr) (p : SearchPage) : Int :=
  (if env.toLowerCase (orEmpty p.title) = env.toLowerCase q then 300 else 0) +
  (if 0 ≤ indexOf (env.toLowerCase (orEmpty p.title)) (env.toLowerCase q) then
    220 - indexOf (env.toLowerCase (orEmpty p.title)) (env.toLowerCase q) else 0) +
  10 * (literalCount (env.toLowerCase q) 0 (env.toLowerCase (orEmpty p.content)) : Int)

/-! ## The ancestor walk (`fetchParentChain`, `src/wiki/page.js` lines 22-37) -/

/-- A row of `pages` with the columns `id, title, slug, parent_id`. -/
structure PageRef where
  id : JVal
  title : JVal
  slug : JVal
  parent_id : JVal

/-- The expression `x.parent_id ? { id: x.parent_id } : null`, the object
`{ id }` being represented by the id. -/
def parentCursor (parent_id : JVal) : JVal :=
  if parent_id.truthy then parent_id else .null

/-- The `while` loop of `fetchParentChain`.  The first argument is the number
of rounds the guard still allows (`12 - guard`); `fetch id` is the `data` of
the query for `id`, `none` when the query fails or finds nothing.  The result
is the chain and the ids fetched, both in fetch order. -/
def parentLoop (fetch : JVal → Option PageRef) :
    Nat → JVal → List PageRef → List JVal → List PageRef × List JVal
  | 0, _, chain, fetched => (chain, fetched)
  | n + 1, cur, chain, fetched =>
    if cur.truthy then
      match fetch cur with
      | none => (chain, fetched ++ [cur])
      | some data =>
        parentLoop fetch n (parentCursor data.parent_id) (chain ++ [data]) (fetched ++ [cur])
    else (chain, fetched)

/-- The function `fetchParentChain`: the reversed chain, and the ids fetched
in fetch order. -/
def fetchParentChain (fetch : JVal → Option PageRef) (start : Option PageRef) :
    List PageRef × List JVal :=
  let cur := match start with
    | some s => parentCursor s.parent_id
    | none => .null
  let r := parentLoop fetch 12 cur [] []
  (r.1.reverse, r.2)

/-- The pages `ps` are what following the parent links from the id `cur`
fetches, one after the other. -/
def IsWalk (fetch : JVal → Option PageRef) : JVal → List PageRef → Prop
  | _, [] => True
  | cur, p :: ps => cur.truthy = true ∧ fetch cur = some p ∧ IsWalk fetch p.parent_id ps

/-- The parent id reached at the end of a walk. -/
def walkEnd : JVal → List PageRef → JVal
  | cur, [] => cur
  | _, p :: ps => walkEnd p.parent_id ps

/-- The walk cannot go on from `cur`: there is no parent, or the fetch fails
or finds nothing. -/
def WalkStops (fetch : JVal → Option PageRef) (cur : JVal) : Prop :=
  cur.truthy = false ∨ fetch cur = none

/-- A sample page row. -/
def pageRef (id : String) (parent : JVal) : PageRef := ⟨.str id, .str id, .str id, parent⟩

/-- A sample store: `root` has no parent, `mid` is under `root`, `leaf` under
`mid`, `orphan` under a page that does not exist, and `loop` is its own
parent. -/
def sampleFetch : JVal → Option PageRef
  | .str "root" => some (pageRef "root" .null)
  | .str "mid" => some (pageRef "mid" (.str "root"))
  | .str "leaf" => some (pageRef "leaf" (.str "mid"))
  | .str "orphan" => some (pageRef "orphan" (.str "gone"))
  | .str "loop" => some (pageRef "loop" (.str "loop"))
  | _ => none

/-! ## Saving a page (`savePage`, `src/wiki/admin.js` lines 249-330) -/

/-- The built-in `String.prototype.trim`: white space and line terminators,
the class `\s`, are removed at both ends. -/
def jsTrim (s : String) : String :=
  ⟨(s.data.dropWhile isSpace).rdropWhile isSpace⟩

/-- The built-in `split` with a one-character separator. -/
def splitOnChar (sep : Char) : List Char → List (List Char)
  | [] => [[]]
  | c :: cs =>
    if c = sep then [] :: splitOnChar sep cs
    else match splitOnChar sep cs with
      | [] => [[c]]
      | w :: ws => (c :: w) :: ws

/-- The expression
`tagsInput ? tagsInput.split(",").map(t => t.trim()).filter(Boolean) : []`. -/
def parseTags (tagsInput : String) : List String :=
  if tagsInput = "" then []
  else ((splitOnChar ',' tagsInput.data).map fun t => jsTrim ⟨t⟩).filter fun t => t ≠ ""

/-- The test `a === b` on values read from the store: primitives are compared
by value; arrays and objects, compared by reference in JavaScript, never
coincide here. -/
def JVal.strictEq : JVal → JVal → Bool
  | .undefined, .undefined => true
  | .null, .null => true
  | .bool a, .bool b => a == b
  | .num a, .num b => a == b
  | .str a, .str b => a == b
  | _, _ => false

/-- A row of `pages` as `loadPages` selects it. -/
structure StoredPage where
  id : JVal
  title : JVal
  slug : JVal
  created_at : JVal
  updated_at : JVal
  status : JVal
  content : JVal
  parent_id : JVal
  tags : JVal
  sidebar_info : JVal

/-- The object `data` that `savePage` writes (lines 284-306). -/
structure PagePayload where
  title : String
  slug : String
  status : String
  content : String
  author_id : JVal
  parent_id : Option String
  tags : List String
  sidebar_info : JVal

/-- The editor: the values of the form controls and the module variables.
`parentPage`, `tagsInput` and `slugLock` are `none` when the page has no such
element. -/
structure EditorState where
  titleInput : String
  slugInput : String
  status : String
  content : String
  parentPage : Option String
  tagsInput : Option String
  slugLock : Option Bool
  builderState : List Section
  selectedPage : Option StoredPage
  allPages : List StoredPage
  isDirty : Bool

/-- What is fixed while the editor is open: the two built-ins of `slugify`,
`user.id` and `profile?.role`. -/
structure EditorEnv where
  toLowerCase : String → String
  normalizeNFKD : String → String
  userId : JVal
  role : Option String

/-- The constant `isWriter`. -/
def EditorEnv.isWriter (env : EditorEnv) : Bool := env.role == some "writer"

/-- The constant `isAdmin`. -/
def EditorEnv.isAdmin (env : EditorEnv) : Bool := env.role == some "admin"

/-- A call that the editor makes to the store. -/
inductive EditorCall where
  | slugCheck (slug : String)
  | update (id : JVal) (data : PagePayload)
  | insert (data : PagePayload)
  | loadPages

/-- The toasts of `savePage`. -/
inductive Notice where
  | titleMissing
  | slugMissing
  | writerCannotPublish
  | slugCheckFailed
  | slugTaken
  | writeFailed (message : String)
  | updated
  | inserted
  deriving DecidableEq

/-- The answers of the store to the editor: the uniqueness check gives an
error message or `existing` (`null` or the ids of the rows found); a write
gives an error message or nothing; `loadPages` gives an error message or
`data`, which may be `null`. -/
structure EditorStore where
  slugCheck : String → Except String (Option (List JVal))
  update : JVal → PagePayload → Option String
  insert : PagePayload → Option String
  loadPages : Except String (Option (List StoredPage))

/-- The outcome of an editor action: the store calls in order, the toasts in
order, and the editor afterwards. -/
structure SaveOutcome where
  calls : List EditorCall
  notices : List Notice
  state : EditorState

/-- The function `loadPages` (lines 186-195) on the editor. -/
def loadPages (store : EditorStore) (st : EditorState) : EditorState :=
  match store.loadPages with
  | .error _ => st
  | .ok data => { st with allPages := data.getD [] }

/-- The value of `slugConflict` (line 281). -/
def slugConflict (existing : Option (List JVal)) (selectedPage : Option StoredPage) : Bool :=
  match existing with
  | some (row :: _) =>
    (match selectedPage with
     | none => true
     | some sel => !(row.strictEq sel.id))
  | _ => false

/-- The constant `finalSlug` (line 261): the trimmed slug field, or the slug
of the trimmed title when the field is blank. -/
def finalSlug (env : EditorEnv) (st : EditorState) : String :=
  if jsTrim st.slugInput ≠ "" then jsTrim st.slugInput
  else slugify env.toLowerCase env.normalizeNFKD (jsTrim st.titleInput)

/-- The object `data` (lines 284-306), from the constants of lines 251-261. -/
def savePayload (env : EditorEnv) (st : EditorState) : PagePayload :=
  { title := jsTrim st.titleInput
    slug := finalSlug env st
    status := st.status
    content := st.content
    author_id := env.userId
    parent_id := match st.parentPage with
      | some v => if v = "" then none else some v
      | none => none
    tags := parseTags (match st.tagsInput with
      | some v => jsTrim v
      | none => "")
    sidebar_info := encodeSidebarInfo st.builderState }

/-- The write of lines 310-326: an update of the selected page or an insert,
then `loadPages` and `isDirty = false`, whether the write failed or not. -/
def writePage (store : EditorStore) (st : EditorState) (data : PagePayload) : SaveOutcome :=
  match st.selectedPage with
  | some sel =>
    ⟨[.update sel.id data, .loadPages],
      [match store.update sel.id data with
       | some message => .writeFailed message
       | none => .updated],
      { loadPages store st with isDirty := false }⟩
  | none =>
    ⟨[.insert data, .loadPages],
      [match store.insert data with
       | some message => .writeFailed message
       | none => .inserted],
      { loadPages store st with isDirty := false }⟩

/-- The function `savePage`. -/
def savePage (env : EditorEnv) (store : EditorStore) (st : EditorState) : SaveOutcome :=
  if jsTrim st.titleInput = "" then ⟨[], [.titleMissing], st⟩
  else if finalSlug env st = "" then ⟨[], [.slugMissing], st⟩
  else if env.isWriter && st.status == "published" then ⟨[], [.writerCannotPublish], st⟩
  else match store.slugCheck (finalSlug env st) with
    | .error _ => ⟨[.slugCheck (finalSlug env st)], [.slugCheckFailed], st⟩
    | .ok existing =>
      if slugConflict existing st.selectedPage then
        ⟨[.slugCheck (finalSlug env st)], [.slugTaken], st⟩
      else
        ⟨.slugCheck (finalSlug env st) :: (writePage store st (savePayload env st)).calls,
          (writePage store st (savePayload env st)).notices,
          (writePage store st (savePayload env st)).state⟩

/-- A writer's editor holding a new, titled page marked as published. -/
def writerState : EditorState :=
  ⟨"Orta Çağ", "", "published", "<p>metin</p>", some "", some "tarih, ", some true, [], none,
    [], true⟩

/-- An environment in which the current user is a writer. -/
def writerEnv : EditorEnv := ⟨toLowerCaseLatin, normalizeNFKDLatin, .str "u1", some "writer"⟩

/-- A store that accepts everything and holds no page. -/
def emptyStore : EditorStore := ⟨fun _ => .ok (some []), fun _ _ => none, fun _ => none, .ok (some [])⟩

/-! ## The title, slug and selection handlers (`admin.js` lines 208-247) -/

/-- The `input` handler of the title field (lines 209-217), after the user
has put `value` into the field: with the lock on, the slug field gets the
slug of the trimmed title. -/
def onTitleInput (env : EditorEnv) (value : String) (st : EditorState) : EditorState :=
  if st.slugLock = some true then
    { st with
      titleInput := value
      slugInput := slugify env.toLowerCase env.normalizeNFKD (jsTrim value)
      isDirty := true }
  else { st with titleInput := value, isDirty := true }

/-- The `input` handler of the slug field (lines 220-224), after the user has
put `value` into the field.  The flag `settingProgrammaticSlug` is false
whenever a handler starts: it is set and reset within the title handler, and
an assignment to `slugInput.value` raises no `input` event. -/
def onSlugInput (value : String) (st : EditorState) : EditorState :=
  { st with
    slugInput := value
    slugLock := if st.slugLock = some true then some false else st.slugLock
    isDirty := true }

/-- The function `selectPage` (lines 226-247).  `jsString v` is the string
that `v` becomes when it is converted to a string (by `toString()`, or by a
form control it is assigned to), the identity on strings; every control is
taken to hold the string assigned to it.  The builder is left empty when
`loadSidebarIntoBuilder` throws. -/
def selectPage (env : EditorEnv) (jsString : JVal → String)
    (jsonParse : JVal → Option JVal) (page : StoredPage) (st : EditorState) : EditorState :=
  { titleInput := jsString (page.title.orElse (.str ""))
    slugInput := jsString (page.slug.orElse (.str ""))
    status := jsString (page.status.orElse (.str "draft"))
    content := jsString (page.content.orElse (.str ""))
    parentPage := st.parentPage.map fun _ => jsString (page.parent_id.orElse (.str ""))
    tagsInput := st.tagsInput.map fun _ =>
      match page.tags with
      | .arr items => String.intercalate ", " (items.map fun it =>
          match it with
          | .undefined => ""
          | .null => ""
          | v => jsString v)
      | tags => jsString (tags.orElse (.str ""))
    slugLock := st.slugLock.map fun _ =>
      (page.slug.orElse (.str "")).strictEq
        (.str (slugify env.toLowerCase env.normalizeNFKD
          (jsString (page.title.orElse (.str "")))))
    builderState := (loadSidebarIntoBuilder jsonParse page.sidebar_info).getD []
    selectedPage := some page
    allPages := st.allPages
    isDirty := false }

/-- A conversion to string for the samples: strings as they are, everything
else as the empty string. -/
def sampleString : JVal → String
  | .str s => s
  | _ => ""

/-- A stored page with the given id, title and slug, published by its
author. -/
def storedPage (id title slug : String) : StoredPage :=
  ⟨.str id, .str title, .str slug, .null, .null, .str "published", .str "<p>metin</p>", .null,
    .arr [], .null⟩

/-- An admin's environment, the current user being `u2`. -/
def adminEnv : EditorEnv := ⟨toLowerCaseLatin, normalizeNFKDLatin, .str "u2", some "admin"⟩

/-- An editor with unsaved changes to the selected page `p1`, which the user
`u1` created. -/
def dirtyState : EditorState :=
  ⟨"Orta Çağ Tarihi", "orta-cag-tarihi", "published", "<p>yeni metin</p>", some "", some "",
    some true, [], some (storedPage "p1" "Orta Çağ" "orta-cag"),
    [storedPage "p1" "Orta Çağ" "orta-cag"], true⟩

/-- A store on which every write fails and whose page list is unchanged. -/
def failingStore : EditorStore :=
  ⟨fun _ => .ok (some []), fun _ _ => some "permission denied",
    fun _ => some "permission denied", .ok (some [storedPage "p1" "Orta Çağ" "orta-cag"])⟩

/-- A store in which the page `p2` already has every slug. -/
def takenStore : EditorStore :=
  ⟨fun _ => .ok (some [.str "p2"]), fun _ _ => none, fun _ => none, .ok (some [])⟩

/-! ## Recently visited pages (`loadPage`, `src/wiki/page.js` lines 402-411) -/

/-- The record `{ slug, title, visited_at }` of a visit. -/
def visitRecord (slug title visitedAt : JVal) : JVal :=
  .obj [("slug", slug), ("title", title), ("visited_at", visitedAt)]

/-- The filter callback `it => it && it.slug !== rec.slug`; no prototype
defines `slug`, so `getProp` gives the member. -/
def keepVisit (slug : JVal) (it : JVal) : Bool :=
  it.truthy && !(((it.getProp "slug").getD .undefined).strictEq slug)

/-- The update of the stored list (lines 404-409): `arr` is the value parsed
from the storage (`[]` when there is none or the parse throws), the result is
the array that is written back. -/
def updateRecentVisited (slug title visitedAt : JVal) (arr : JVal) : List JVal :=
  let kept := match arr with
    | .arr items => items.filter (keepVisit slug)
    | _ => []
  let arr := visitRecord slug title visitedAt :: kept
  if arr.length > 20 then arr.take 20 else arr

/-- A visit of the page with the given slug at the given time. -/
def visit (slug : String) (time : Int) (arr : List JVal) : List JVal :=
  updateRecentVisited (.str slug) (.str slug) (.num time) (.arr arr)

/-- The slug of a stored record, for display. -/
def slugText (it : JVal) : String :=
  match it.getProp "slug" with
  | some (.str s) => s
  | _ => ""

/-! ## Un-escaping anchors (`unescapeAnchorsOnly`, `src/wiki/page.js` lines 6-20)

The regular expressions have no `u` flag and work on UTF-16 code units; with
the flag `i` an ASCII letter matches its other case and nothing else. -/

/-- An ASCII capital letter turned into its small letter. -/
def lowerAscii (n : Nat) : Nat := if 65 ≤ n ∧ n ≤ 90 then n + 32 else n

/-- The test "the subject starts with the pattern, letter case ignored"; the
pattern is given in small letters. -/
def startsWithCI : JStr → JStr → Bool
  | [], _ => true
  | _ :: _, [] => false
  | p :: ps, c :: cs => (lowerAscii c == p) && startsWithCI ps cs

/-- The class `\s` on code units. -/
def isSpaceUnit (n : Nat) : Bool :=
  (9 ≤ n && n ≤ 13) || n == 0x20 || n == 0xA0 || n == 0x1680 ||
  (0x2000 ≤ n && n ≤ 0x200A) || n == 0x2028 || n == 0x2029 || n == 0x202F ||
  n == 0x205F || n == 0x3000 || n == 0xFEFF

/-- The class `[a-z]` under the flag `i`: the ASCII letters. -/
def isLetterUnit (n : Nat) : Bool := (65 ≤ n && n ≤ 90) || (97 ≤ n && n ≤ 122)

/-- The class `\w`: ASCII letters, digits and the underscore. -/
def isWordUnit (n : Nat) : Bool := isLetterUnit n || (48 ≤ n && n ≤ 57) || n == 95

/-- The call `s.replace(re, ...)` for a global pattern: `matchAt t` is, when
the pattern matches at the start of `t`, the length of the match (at least 1)
and its replacement.  The first argument is the number of units still covered
by the last match. -/
def replaceAll (matchAt : JStr → Option (Nat × JStr)) : Nat → JStr → JStr
  | _, [] => []
  | skip + 1, _ :: cs => replaceAll matchAt skip cs
  | 0, c :: cs =>
    match matchAt (c :: cs) with
    | some (len, replacement) => replacement ++ replaceAll matchAt (len - 1) cs
    | none => c :: replaceAll matchAt 0 cs

/-- A match of the pattern `\son[a-z]+\s*=\s*Q[^Q]*Q` (flag `i`) at the start
of the subject, `Q` being the quote `quote`; the replacement is empty.  Every
repetition is followed by a unit outside its class, so the greedy match is
the only one. -/
def matchHandler (quote : Nat) (s : JStr) : Option (Nat × JStr) :=
  match s with
  | [] => none
  | c :: rest =>
    if isSpaceUnit c && startsWithCI [111, 110] rest then
      if ((rest.drop 2).takeWhile isLetterUnit).isEmpty then none
      else
        match ((rest.drop 2).dropWhile isLetterUnit).dropWhile isSpaceUnit with
        | 61 :: afterEq =>
          (match afterEq.dropWhile isSpaceUnit with
           | [] => none
           | q :: value =>
             if q = quote then
               (match value.dropWhile (fun u => u != quote) with
                | [] => none
                | _ :: after => some (s.length - after.length, []))
             else none)
        | _ => none
    else none

/-- A match of the pattern `javascript:` (flag `i`), with empty replacement. -/
def matchJavascript (s : JStr) : Option (Nat × JStr) :=
  if startsWithCI (utf16 "javascript:") s then some (11, []) else none

/-- The value of `safeAttrs` (lines 13-18): the two handler patterns and then
`javascript:` are removed, each in one pass. -/
def safeAttrs (attrs : JStr) : JStr :=
  replaceAll matchJavascript 0
    (replaceAll (matchHandler 39) 0 (replaceAll (matchHandler 34) 0 attrs))

/-- The first place where the pattern occurs, letter case ignored: what is
before it and what is behind it. -/
def findCI (pattern : JStr) : JStr → Option (JStr × JStr)
  | [] => if pattern.isEmpty then some ([], []) else none
  | c :: cs =>
    if startsWithCI pattern (c :: cs) then some ([], (c :: cs).drop pattern.length)
    else match findCI pattern cs with
      | some (before, after) => some (c :: before, after)
      | none => none

/-- A match of the pattern `&lt;a\b([^&]*)&gt;([\s\S]*?)&lt;\/a&gt;` (flag
`i`) at the start of the subject, with the replacement that the callback
gives: `<a`, the cleaned attributes, `>`, the inner text, `</a>`. -/
def matchAnchor (s : JStr) : Option (Nat × JStr) :=
  if startsWithCI (utf16 "&lt;a") s then
    if ((s.drop 5).head?.map isWordUnit).getD false then none
    else if startsWithCI (utf16 "&gt;") ((s.drop 5).dropWhile fun u => u != 38) then
      match findCI (utf16 "&lt;/a&gt;") (((s.drop 5).dropWhile fun u => u != 38).drop 4) with
      | some (inner, after) =>
        some (s.length - after.length,
          utf16 "<a" ++ safeAttrs ((s.drop 5).takeWhile fun u => u != 38) ++ [62] ++ inner ++
            utf16 "</a>")
      | none => none
    else none
  else none

/-- The function `unescapeAnchorsOnly` on a string. -/
def unescapeAnchorsOnly (html : JStr) : JStr := replaceAll matchAnchor 0 html

/-- Content with an escaped anchor whose address hides `javascript:` in
itself. -/
def nestedJavascript : JStr :=
  utf16 "&lt;a href=\"javajavascript:script:alert(1)\"&gt;x&lt;/a&gt;"

/-- Content with an escaped anchor that has a handler and a `javascript:`
address. -/
def plainJavascript : JStr :=
  utf16 "a &lt;a onclick=\"x()\" href=\"JavaScript:alert(1)\"&gt;b&lt;/a&gt; c"

/-- What a section is after it is saved and loaded again: a falsy title or
image is the empty string, and the fields are those that pass the filter of
the encoder. -/
def Section.reloaded (sec : Section) : Section :=
  ⟨if sec.title.truthy then sec.title else .str "",
    if sec.image.truthy then sec.image else .str "",
    sec.fields.filter keepField⟩

/-! ## Dropping a section (`renderBuilder`, `admin.js` lines 512-528) -/

/-- The `drop` handler of a section for the drag data `sec:from` on the
section at index `to`: the new `builderState`, or `none` when `from` is not an
index of the list (the handler would then insert `undefined`). -/
def dropSection (source target : Nat) (builderState : List α) : Option (List α) :=
  if source = target then some builderState
  else match builderState[source]? with
    | none => none
    | some item =>
      some (((builderState.eraseIdx source).insertIdx
        (min (if source < target then target - 1 else target)
          (builderState.eraseIdx source).length) item))

/-- A candidate whose title holds the query behind 221 other characters. -/
def longTitlePage : SearchPage :=
  ⟨some (List.replicate 221 120 ++ utf16 "dragon"), none, none, none⟩

/-- A stored section in the legacy shape whose mapping holds a string, the
number `0` and the empty string. -/
def zeroValueProps : List (String × JVal) :=
  [("title", .str "Genel"),
    ("fields", .obj [("Tür", .str "Ejderha"), ("Seviye", .num 0), ("Not", .str "")])]

/-- A store in which the slug looked up belongs to the page `p1`. -/
def ownStore : EditorStore :=
  ⟨fun _ => .ok (some [.str "p1"]), fun _ _ => none, fun _ => none, .ok (some [])⟩

/-- A candidate whose content is 65 times the letter U+0130 (capital I with
dot above) followed by ` dragon sleeps`. -/
def dottedPage : SearchPage :=
  ⟨some (utf16 "Dotted"), none, none, some (List.replicate 65 0x130 ++ utf16 " dragon sleeps")⟩

/-! ## Lemmas on the codec -/

theorem mapThrowing_eq_some_map {f : α → Option β} {g : α → β} :
    ∀ (l : List α), (∀ a ∈ l, f a = some (g a)) → mapThrowing f l = some (l.map g)
  | [], _ => rfl
  | a :: as, h => by
    have h1 : f a = some (g a) := h a (List.mem_cons_self _ _)
    have h2 := mapThrowing_eq_some_map as (fun x hx => h x (List.mem_cons_of_mem _ hx))
    simp [mapThrowing, h1, h2]

theorem mapThrowing_map (f : β → Option γ) (g : α → β) :
    ∀ (l : List α), mapThrowing f (l.map g) = mapThrowing (fun a => f (g a)) l
  | [] => rfl
  | a :: as => by
    simp [mapThrowing, mapThrowing_map f g as]

theorem orElse_str_empty (s : String) : (JVal.str s).orElse (.str "") = .str s := by
  by_cases h : s = ""
  · subst h; simp [JVal.orElse, JVal.truthy]
  · simp [JVal.orElse, JVal.truthy, h]

theorem isStr_iff {v : JVal} : v.isStr = true ↔ ∃ s, v = .str s := by
  cases v <;> simp [JVal.isStr]

theorem keepField_of_WF {f : Field} (h : f.WF) : keepField f = !f.hasEmptyKey := by
  obtain ⟨key, value⟩ := f
  obtain ⟨hk, hv⟩ := h
  obtain ⟨k, rfl⟩ := isStr_iff.mp hk
  obtain ⟨v, rfl⟩ := isStr_iff.mp hv
  by_cases h1 : k = "" <;> by_cases h2 : v = "" <;>
    simp [keepField, Field.hasEmptyKey, JVal.truthy, JVal.isEmptyStr, bne, h1, h2]

theorem decodeField_encodeField {f : Field} (h : f.WF) :
    decodeField (encodeField f) = some f := by
  obtain ⟨key, value⟩ := f
  obtain ⟨hk, hv⟩ := h
  obtain ⟨k, rfl⟩ := isStr_iff.mp hk
  obtain ⟨v, rfl⟩ := isStr_iff.mp hv
  simp [decodeField, encodeField, JVal.getProp, JVal.lookup, orElse_str_empty]

theorem decodeFields_encoded {fs : List Field} (h : ∀ f ∈ fs, f.WF) :
    decodeFields (.arr ((fs.filter keepField).map encodeField)) =
      some (fs.filter fun f => !f.hasEmptyKey) := by
  have hfilter : fs.filter keepField = fs.filter (fun f => !f.hasEmptyKey) :=
    List.filter_congr (fun f hf => keepField_of_WF (h f hf))
  simp only [decodeFields, mapThrowing_map, hfilter]
  have := mapThrowing_eq_some_map (f := fun a => decodeField (encodeField a)) (g := id)
    (fs.filter fun f => !f.hasEmptyKey)
    (fun a ha => decodeField_encodeField (h a (List.mem_of_mem_filter ha)))
  simpa using this

theorem decodeSection_encodeSection {sec : Section} (h : sec.WF) :
    decodeSection (encodeSection sec) = some sec.dropEmptyKeys := by
  obtain ⟨title, image, fields⟩ := sec
  obtain ⟨ht, hi, hf⟩ := h
  obtain ⟨t, rfl⟩ := isStr_iff.mp ht
  obtain ⟨i, rfl⟩ := isStr_iff.mp hi
  have hfs : mapThrowing decodeField ((fields.filter keepField).map encodeField) =
      some (fields.filter fun f => !f.hasEmptyKey) := by
    simpa [decodeFields] using decodeFields_encoded hf
  by_cases h1 : t = "" <;> by_cases h2 : i = "" <;> by_cases h3 : fields = [] <;>
    simp [decodeSection, encodeSection, JVal.getProp, JVal.lookup, JVal.truthy,
      Section.dropEmptyKeys, orElse_str_empty, h1, h2, h3, hfs, decodeFields,
      JVal.orElse, JVal.objectEntries, bne]

theorem sampleSections_WF : ∀ s ∈ sampleSections, s.WF := by
  simp [sampleSections, Section.WF, Field.WF, JVal.isStr]

theorem encodeSidebarInfo_cons_cons (s1 s2 : Section) (rest : List Section) :
    encodeSidebarInfo (s1 :: s2 :: rest) = .arr ((s1 :: s2 :: rest).map encodeSection) := by
  simp [encodeSidebarInfo]

theorem encodeSidebarInfo_single (s : Section) :
    encodeSidebarInfo [s] = encodeSection s := by
  simp [encodeSidebarInfo]

theorem load_obj (jsonParse : JVal → Option JVal) (props : List (String × JVal)) :
    loadSidebarIntoBuilder jsonParse (.obj props) =
      (decodeSection (.obj props)).map fun sec => [sec] := by
  simp [loadSidebarIntoBuilder, JVal.truthy, JVal.typeofObject]

theorem load_arr (jsonParse : JVal → Option JVal) (items : List JVal) :
    loadSidebarIntoBuilder jsonParse (.arr items) = mapThrowing decodeSection items := by
  simp [loadSidebarIntoBuilder, JVal.truthy, JVal.typeofObject]

/-! ## Theorems on the infobox codec -/

/-- C1: for at least two well-formed sections, decoding the encoded value
gives back the sections in order, each with its title, its image and exactly
its fields of non-empty key, in order. -/
theorem infobox_roundtrip_many (jsonParse : JVal → Option JVal) (secs : List Section)
    (hlen : 2 ≤ secs.length) (hwf : ∀ s ∈ secs, s.WF) :
    loadSidebarIntoBuilder jsonParse (encodeSidebarInfo secs) =
      some (secs.map fun s =>
        ⟨s.title, s.image, s.fields.filter fun f => !f.hasEmptyKey⟩) := by
  match secs, hlen, hwf with
  | s1 :: s2 :: rest, _, hwf =>
    rw [encodeSidebarInfo_cons_cons, load_arr, mapThrowing_map]
    exact mapThrowing_eq_some_map _ (fun a ha => decodeSection_encodeSection (hwf a ha))

/-- Witness of C1 on `sampleSections`: the field with the empty key is gone,
everything else is back. -/
theorem infobox_roundtrip_many_witness :
    2 ≤ sampleSections.length ∧ (∀ s ∈ sampleSections, s.WF) ∧
    loadSidebarIntoBuilder (fun _ => none) (encodeSidebarInfo sampleSections) =
      some [⟨.str "Genel", .str "", [⟨.str "Tür", .str "Ejderha"⟩]⟩,
            ⟨.str "", .str "a.png", []⟩] :=
  ⟨by decide, sampleSections_WF,
    (infobox_roundtrip_many _ sampleSections (by decide) sampleSections_WF).trans
      (by simp [sampleSections, Field.hasEmptyKey, JVal.isEmptyStr])⟩

/-- C2: one well-formed section is encoded as the bare section object, not as
an array, and decoding that object gives the one-element list holding the
section without its fields of empty key. -/
theorem infobox_roundtrip_single (jsonParse : JVal → Option JVal) (s : Section)
    (hwf : s.WF) :
    encodeSidebarInfo [s] = encodeSection s ∧
    (∃ props, encodeSidebarInfo [s] = .obj props) ∧
    (∀ items, encodeSidebarInfo [s] ≠ .arr items) ∧
    loadSidebarIntoBuilder jsonParse (encodeSidebarInfo [s]) =
      some [⟨s.title, s.image, s.fields.filter fun f => !f.hasEmptyKey⟩] := by
  refine ⟨encodeSidebarInfo_single s, ⟨_, encodeSidebarInfo_single s⟩, ?_, ?_⟩
  · intro items h
    rw [encodeSidebarInfo_single] at h
    simp [encodeSection] at h
  · have h := decodeSection_encodeSection hwf
    rw [encodeSidebarInfo_single]
    unfold encodeSection at h ⊢
    rw [load_obj, h]
    rfl

/-- Witness of C2 on `sampleSection`. -/
theorem infobox_roundtrip_single_witness :
    sampleSection.WF ∧
    encodeSidebarInfo [sampleSection] =
      .obj [("title", .str "Genel"),
            ("fields", .arr [.obj [("key", .str "Tür"), ("value", .str "Ejderha")]])] ∧
    loadSidebarIntoBuilder (fun _ => none) (encodeSidebarInfo [sampleSection]) =
      some [sampleSection] :=
  have hwf : sampleSection.WF := by
    simp [sampleSection, Section.WF, Field.WF, JVal.isStr]
  ⟨hwf,
    by simp [encodeSidebarInfo, encodeSection, sampleSection, JVal.truthy, keepField,
      encodeField],
    (infobox_roundtrip_single _ sampleSection hwf).2.2.2.trans
      (by simp [sampleSection, Field.hasEmptyKey, JVal.isEmptyStr])⟩

/-- C3: the encoder returns `null` for no section, the encoded section object
itself for one section, and otherwise the array of the encoded section
objects in input order; an encoded section is always an object. -/
theorem encoder_shape :
    encodeSidebarInfo [] = .null ∧
    (∀ s, encodeSidebarInfo [s] = encodeSection s) ∧
    (∀ s1 s2 rest, encodeSidebarInfo (s1 :: s2 :: rest) =
      .arr (encodeSection s1 :: encodeSection s2 :: rest.map encodeSection)) ∧
    (∀ s, ∃ props, encodeSection s = .obj props) :=
  ⟨rfl, encodeSidebarInfo_single, fun s1 s2 rest => encodeSidebarInfo_cons_cons s1 s2 rest,
    fun _ => ⟨_, rfl⟩⟩

/-- C4, as stated, fails: a list holding one blank section (empty title, empty
image, no field) is encoded as the empty object, not as `null`. -/
theorem blank_section_not_null :
    encodeSidebarInfo [blankSection] = .obj [] ∧
    encodeSidebarInfo [blankSection] ≠ .null := by
  have h : encodeSidebarInfo [blankSection] = .obj [] := by
    simp [encodeSidebarInfo, encodeSection, blankSection, JVal.truthy]
  exact ⟨h, by rw [h]; simp⟩

/-- C4, amended: the encoder returns `null` exactly for the list without
sections, and `loadSidebarIntoBuilder` turns `null` into the empty list. -/
theorem null_iff_no_section :
    (∀ secs, encodeSidebarInfo secs = .null ↔ secs = []) ∧
    (∀ jsonParse, loadSidebarIntoBuilder jsonParse .null = some []) := by
  refine ⟨fun secs => ?_, fun _ => rfl⟩
  match secs with
  | [] => simp [encodeSidebarInfo]
  | [s] => simp [encodeSidebarInfo_single, encodeSection]
  | s1 :: s2 :: rest => simp [encodeSidebarInfo_cons_cons]

/-- C5, as stated, fails: a section whose only field has an empty key is
encoded with a `fields` property, holding the empty array. -/
theorem empty_key_fields_kept :
    (∀ f ∈ blankFieldSection.fields, f.hasEmptyKey = true) ∧
    blankFieldSection.fields.filter keepField = [] ∧
    encodeSection blankFieldSection = .obj [("fields", .arr [])] ∧
    (encodeSection blankFieldSection).hasKey "fields" = true := by
  simp [blankFieldSection, Field.hasEmptyKey, JVal.isEmptyStr, keepField, encodeSection,
    JVal.truthy, JVal.hasKey, JVal.lookup]

/-- C5, amended: the encoded object has the key `title` exactly when the title
is truthy, `image` exactly when the image is truthy, `fields` exactly when the
section's field list, before filtering, is non-empty; it has no other key. -/
theorem encoded_section_keys (sec : Section) :
    ((encodeSection sec).hasKey "title" = true ↔ sec.title.truthy = true) ∧
    ((encodeSection sec).hasKey "image" = true ↔ sec.image.truthy = true) ∧
    ((encodeSection sec).hasKey "fields" = true ↔ sec.fields ≠ []) ∧
    (∀ k, (encodeSection sec).hasKey k = true → k = "title" ∨ k = "image" ∨ k = "fields") := by
  obtain ⟨title, image, fields⟩ := sec
  refine ⟨?_, ?_, ?_, fun k => ?_⟩ <;>
    by_cases h1 : title.truthy = true <;> by_cases h2 : image.truthy = true <;>
    by_cases h3 : fields = [] <;>
    simp [encodeSection, JVal.hasKey, JVal.lookup, h1, h2, h3]
  all_goals
    repeat' split
    all_goals simp_all

theorem keepField_eq_keyedAndPresent {f : Field} (hk : f.key.isStr = true)
    (hv : f.value.isStr = true ∨ f.value = .undefined ∨ f.value = .null) :
    keepField f = f.keyedAndPresent := by
  obtain ⟨key, value⟩ := f
  obtain ⟨k, rfl⟩ := isStr_iff.mp hk
  rcases hv with hv | hv | hv
  · obtain ⟨v, rfl⟩ := isStr_iff.mp hv
    by_cases h1 : k = "" <;> by_cases h2 : v = "" <;>
      simp [keepField, Field.keyedAndPresent, JVal.truthy, JVal.isEmptyStr, bne, h1, h2]
  · simp only at hv
    subst hv
    simp [keepField, Field.keyedAndPresent, JVal.truthy, JVal.isEmptyStr]
  · simp only at hv
    subst hv
    simp [keepField, Field.keyedAndPresent, JVal.truthy, JVal.isEmptyStr]

/-- On a section with a non-empty field list, whose keys are strings and whose
values are strings or absent, the encoded `fields` value is the array of the
fields with a non-empty key and a string value, in their original order, each
as the pair `{key, value}`. -/
theorem encoded_fields_strings (sec : Section) (hne : sec.fields ≠ [])
    (hk : ∀ f ∈ sec.fields, f.key.isStr = true)
    (hv : ∀ f ∈ sec.fields,
      f.value.isStr = true ∨ f.value = .undefined ∨ f.value = .null) :
    (encodeSection sec).getProp "fields" =
      some (.arr ((sec.fields.filter Field.keyedAndPresent).map fun f =>
        .obj [("key", f.key), ("value", f.value)])) := by
  obtain ⟨title, image, fields⟩ := sec
  have hfilter : fields.filter keepField = fields.filter Field.keyedAndPresent :=
    List.filter_congr fun f hf => keepField_eq_keyedAndPresent (hk f hf) (hv f hf)
  simp only at hne
  by_cases h1 : title.truthy = true <;> by_cases h2 : image.truthy = true <;>
    simp [encodeSection, JVal.getProp, JVal.lookup, h1, h2, hne, hfilter, encodeField]

/-- Of the three fields of `absentValueSection` only the first is kept. -/
theorem encoded_fields_strings_example :
    (encodeSection absentValueSection).getProp "fields" =
      some (.arr ((absentValueSection.fields.filter Field.keyedAndPresent).map fun f =>
        .obj [("key", f.key), ("value", f.value)])) ∧
    absentValueSection.fields.filter Field.keyedAndPresent = [⟨.str "a", .str ""⟩] :=
  ⟨encoded_fields_strings absentValueSection
      (by simp [absentValueSection])
      (by simp [absentValueSection, JVal.isStr])
      (by simp [absentValueSection, JVal.isStr]),
    by simp [absentValueSection, Field.keyedAndPresent]⟩

theorem decodeSection_legacy (props m : List (String × JVal))
    (h : JVal.lookup "fields" props = some (.obj m)) :
    decodeSection (.obj props) =
      some ⟨((JVal.lookup "title" props).getD .undefined).orElse (.str ""),
            ((JVal.lookup "image" props).getD .undefined).orElse (.str ""),
            m.map fun kv => ⟨.str kv.1, kv.2⟩⟩ := by
  simp [decodeSection, JVal.getProp, h, decodeFields, JVal.orElse, JVal.truthy,
    JVal.objectEntries, entryField]

theorem mapThrowing_append_cons {f : α → Option β} {b : β} {x : α} (hx : f x = some b) :
    ∀ (before after : List α) (bs as : List β),
      mapThrowing f before = some bs → mapThrowing f after = some as →
      mapThrowing f (before ++ x :: after) = some (bs ++ b :: as)
  | [], after, bs, as, h1, h2 => by
    simp [mapThrowing] at h1
    subst h1
    simp [mapThrowing, hx, h2]
  | y :: before, after, bs, as, h1, h2 => by
    simp only [mapThrowing, List.cons_append] at h1 ⊢
    cases hy : f y with
    | none => simp [hy] at h1
    | some c =>
      cases hr : mapThrowing f before with
      | none => simp [hy, hr] at h1
      | some cs =>
        simp [hy, hr] at h1
        subst h1
        simp [mapThrowing_append_cons hx before after cs as hr h2]

/-- C6, evaluated where it fails: a stored section in the legacy shape with
the entries `Tür: "Ejderha"`, `Seviye: 0` and `Not: ""` loads into three
builder rows; the encoder keeps the first and the third and drops `Seviye`,
whose key is non-empty and whose value, the number `0`, is present. -/
theorem zero_value_field_dropped :
    loadSidebarIntoBuilder (fun _ => none) (.obj zeroValueProps) =
      some [⟨.str "Genel", .str "",
        [⟨.str "Tür", .str "Ejderha"⟩, ⟨.str "Seviye", .num 0⟩, ⟨.str "Not", .str ""⟩]⟩] ∧
    (loadSidebarIntoBuilder (fun _ => none) (.obj zeroValueProps)).map encodeSidebarInfo =
      some (.obj [("title", .str "Genel"),
        ("fields", .arr [.obj [("key", .str "Tür"), ("value", .str "Ejderha")],
          .obj [("key", .str "Not"), ("value", .str "")]])]) ∧
    keepField ⟨.str "Seviye", .num 0⟩ = false ∧
    keepField ⟨.str "Seviye", .num 300⟩ = true ∧
    keepField ⟨.str "Seviye", .str ""⟩ = true := by
  have h : loadSidebarIntoBuilder (fun _ => none) (.obj zeroValueProps) =
      some [⟨.str "Genel", .str "",
        [⟨.str "Tür", .str "Ejderha"⟩, ⟨.str "Seviye", .num 0⟩, ⟨.str "Not", .str ""⟩]⟩] := by
    have hl : JVal.lookup "fields" zeroValueProps =
        some (.obj [("Tür", .str "Ejderha"), ("Seviye", .num 0), ("Not", .str "")]) := by
      simp [zeroValueProps, JVal.lookup]
    rw [load_obj, decodeSection_legacy _ _ hl]
    simp [zeroValueProps, JVal.lookup, JVal.orElse, JVal.truthy]
  refine ⟨h, ?_, rfl, rfl, rfl⟩
  rw [h]
  simp [encodeSidebarInfo, encodeSection, encodeField, keepField, JVal.truthy, JVal.isEmptyStr]

/-- C7: a stored section whose `fields` is a mapping decodes to a section whose
field list has one `{key, value}` entry per mapping entry, in the mapping's
iteration order; this holds for a bare stored section and for a section at any
position of a stored array whose other sections decode. -/
theorem legacy_mapping_decode (jsonParse : JVal → Option JVal)
    (props m : List (String × JVal))
    (h : JVal.lookup "fields" props = some (.obj m)) :
    ∃ sec : Section,
      sec.fields = m.map (fun kv => ⟨.str kv.1, kv.2⟩) ∧
      loadSidebarIntoBuilder jsonParse (.obj props) = some [sec] ∧
      ∀ (before after : List JVal) (bs as : List Section),
        loadSidebarIntoBuilder jsonParse (.arr before) = some bs →
        loadSidebarIntoBuilder jsonParse (.arr after) = some as →
        loadSidebarIntoBuilder jsonParse (.arr (before ++ .obj props :: after)) =
          some (bs ++ sec :: as) := by
  refine ⟨⟨((JVal.lookup "title" props).getD .undefined).orElse (.str ""),
    ((JVal.lookup "image" props).getD .undefined).orElse (.str ""),
    m.map fun kv => ⟨.str kv.1, kv.2⟩⟩, rfl, ?_, ?_⟩
  · rw [load_obj, decodeSection_legacy props m h]
    rfl
  · intro before after bs as h1 h2
    rw [load_arr] at h1 h2 ⊢
    exact mapThrowing_append_cons (decodeSection_legacy props m h) before after bs as h1 h2

/-- Witness of C7 on `legacyProps`, bare and as the second of three stored
sections. -/
theorem legacy_mapping_decode_witness :
    JVal.lookup "fields" legacyProps = some (.obj [("Tür", .str "Ejderha"), ("Yaş", .num 300)]) ∧
    ∃ sec : Section,
      sec.fields = [⟨.str "Tür", .str "Ejderha"⟩, ⟨.str "Yaş", .num 300⟩] ∧
      loadSidebarIntoBuilder (fun _ => none) (.obj legacyProps) = some [sec] ∧
      loadSidebarIntoBuilder (fun _ => none)
          (.arr ([.obj []] ++ .obj legacyProps :: [.obj []])) =
        some ([blankSection] ++ sec :: [blankSection]) := by
  have hl : JVal.lookup "fields" legacyProps =
      some (.obj [("Tür", .str "Ejderha"), ("Yaş", .num 300)]) := by
    simp [legacyProps, JVal.lookup]
  have hb : loadSidebarIntoBuilder (fun _ => none) (.arr [.obj []]) = some [blankSection] := by
    simp [load_arr, mapThrowing, decodeSection, decodeFields, JVal.getProp, JVal.lookup,
      JVal.orElse, JVal.truthy, JVal.objectEntries, blankSection]
  obtain ⟨sec, hf, hbare, harr⟩ := legacy_mapping_decode (fun _ => none) legacyProps _ hl
  exact ⟨hl, sec, by simpa using hf, hbare, harr _ _ _ _ hb hb⟩

/-! ## Lemmas on the slug generator -/

theorem isDash_iff {c : Char} : isDash c = true ↔ c = '-' := by simp [isDash]

theorem isSlugChar_iff {c : Char} :
    isSlugChar c = true ↔
      (0x61 ≤ c.toNat ∧ c.toNat ≤ 0x7A) ∨ (0x30 ≤ c.toNat ∧ c.toNat ≤ 0x39) ∨
        c = '-' ∨ c = '_' := by
  simp [isSlugChar, or_assoc]

theorem isSpace_eq_false_of_isSlugChar {c : Char} (h : isSlugChar c = true) :
    isSpace c = false := by
  rcases isSlugChar_iff.mp h with h | h | h | h
  · simp [isSpace]; omega
  · simp [isSpace]; omega
  · subst h; rfl
  · subst h; rfl

theorem isSlugChar_of_isBase {c : Char} (h : isBase c = true) : isSlugChar c = true := by
  simp [isBase] at h
  exact isSlugChar_iff.mpr (by omega)

theorem isDash_eq_false_of_isBase {c : Char} (h : isBase c = true) : isDash c = false := by
  by_cases hd : isDash c = true
  · rw [isDash_iff.mp hd] at h
    simp [isBase] at h
  · simpa using hd

theorem mem_collapseDashes {c : Char} :
    ∀ (b : Bool) (l : List Char), c ∈ collapseDashes b l → c ∈ l
  | _, [], h => by simp [collapseDashes] at h
  | b, x :: xs, h => by
    simp only [collapseDashes] at h
    split at h
    · split at h
      · exact List.mem_cons_of_mem _ (mem_collapseDashes _ xs h)
      · rcases List.mem_cons.mp h with h | h
        · exact h ▸ List.mem_cons_self _ _
        · exact List.mem_cons_of_mem _ (mem_collapseDashes _ xs h)
    · rcases List.mem_cons.mp h with h | h
      · exact h ▸ List.mem_cons_self _ _
      · exact List.mem_cons_of_mem _ (mem_collapseDashes _ xs h)

theorem trimDashes_isPrefix (l : List Char) : trimDashes l <+: l.dropWhile isDash :=
  List.rdropWhile_prefix isDash _

theorem mem_trimDashes {c : Char} {l : List Char} (h : c ∈ trimDashes l) : c ∈ l :=
  (List.dropWhile_suffix isDash).subset ((trimDashes_isPrefix l).subset h)

theorem slugSteps_isSlugChar (l : List Char) : ∀ c ∈ slugSteps l, isSlugChar c = true := by
  intro c hc
  have h1 := mem_collapseDashes _ _ (mem_trimDashes hc)
  exact (List.mem_filter.mp h1).2

theorem trimDashes_head (l : List Char) : (trimDashes l).head? ≠ some '-' := by
  intro h
  have hne : trimDashes l ≠ [] := by
    intro h0
    rw [h0] at h
    simp at h
  have hpre := trimDashes_isPrefix l
  have hhead := hpre.head hne
  have hnot := List.head_dropWhile_not isDash l (hpre.ne_nil hne)
  rw [List.head?_eq_head hne] at h
  have h' : (trimDashes l).head hne = '-' := Option.some.inj h
  rw [← hhead, h'] at hnot
  simp [isDash] at hnot

theorem trimDashes_getLast (l : List Char) : (trimDashes l).getLast? ≠ some '-' := by
  intro h
  have hne : trimDashes l ≠ [] := by
    intro h0
    rw [h0] at h
    simp at h
  have hnot := List.rdropWhile_last_not isDash (l.dropWhile isDash) hne
  rw [List.getLast?_eq_getLast _ hne] at h
  have h' : (trimDashes l).getLast hne = '-' := Option.some.inj h
  apply hnot
  show isDash ((trimDashes l).getLast hne) = true
  rw [h']
  rfl

/-- No two neighbours are both hyphens. -/
theorem collapseDashes_chain :
    ∀ (b : Bool) (l : List Char),
      List.Chain' (fun x y => ¬(isDash x = true ∧ isDash y = true)) (collapseDashes b l) ∧
      (b = true → (collapseDashes b l).head? ≠ some '-')
  | _, [] => by simp [collapseDashes]
  | b, c :: cs => by
    have ih1 := collapseDashes_chain true cs
    have ih2 := collapseDashes_chain false cs
    by_cases hc : isDash c = true
    · cases b with
      | true =>
        simp only [collapseDashes, hc, if_true]
        exact ⟨ih1.1, fun _ => ih1.2 rfl⟩
      | false =>
        simp only [collapseDashes, hc, if_true]
        refine ⟨List.chain'_cons'.mpr ⟨?_, ih1.1⟩, by simp⟩
        intro y hy hboth
        have hy' : (collapseDashes true cs).head? = some y := by simpa using hy
        rw [isDash_iff.mp hboth.2] at hy'
        exact ih1.2 rfl hy'
    · simp only [collapseDashes, hc]
      refine ⟨List.chain'_cons'.mpr ⟨fun y _ hboth => hc hboth.1, ih2.1⟩, fun _ h => ?_⟩
      simp only [Bool.false_eq_true, if_false, List.head?_cons, Option.some.injEq] at h
      exact hc (isDash_iff.mpr h)

theorem spacesToDash_id :
    ∀ (b : Bool) (l : List Char), (∀ c ∈ l, isSpace c = false) → spacesToDash b l = l
  | _, [], _ => rfl
  | b, c :: cs, h => by
    have hc : isSpace c = false := h c (List.mem_cons_self _ _)
    simp [spacesToDash, hc,
      spacesToDash_id false cs (fun x hx => h x (List.mem_cons_of_mem _ hx))]

theorem collapseDashes_id :
    ∀ (b : Bool) (l : List Char),
      List.Chain' (fun x y => ¬(isDash x = true ∧ isDash y = true)) l →
      (b = true → l.head? ≠ some '-') → collapseDashes b l = l
  | _, [], _, _ => rfl
  | b, c :: cs, hch, hb => by
    have hch' := List.chain'_cons'.mp hch
    by_cases hc : isDash c = true
    · have hbf : b = false := by
        cases b with
        | false => rfl
        | true => exact absurd (by simp [isDash_iff.mp hc]) (hb rfl)
      subst hbf
      have ih := collapseDashes_id true cs hch'.2 (fun _ hhead =>
        hch'.1 '-' (by simpa using hhead) ⟨hc, rfl⟩)
      simp [collapseDashes, hc, ih]
    · have ih := collapseDashes_id false cs hch'.2 (fun hf => by simp at hf)
      simp [collapseDashes, hc, ih]

theorem trimDashes_id {l : List Char} (hh : l.head? ≠ some '-') (hl : l.getLast? ≠ some '-') :
    trimDashes l = l := by
  have h1 : l.dropWhile isDash = l := by
    cases l with
    | nil => rfl
    | cons c cs =>
      have hc : isDash c = false := by
        by_cases hd : isDash c = true
        · exact absurd (by simp [isDash_iff.mp hd]) hh
        · simpa using hd
      simp [List.dropWhile_cons, hc]
  unfold trimDashes
  rw [h1, List.rdropWhile_eq_self_iff]
  intro hne hd
  apply hl
  rw [List.getLast?_eq_getLast _ hne, isDash_iff.mp hd]

theorem slugSteps_idem (l : List Char) : slugSteps (slugSteps l) = slugSteps l := by
  have hslug := slugSteps_isSlugChar l
  have hchain : List.Chain' (fun x y => ¬(isDash x = true ∧ isDash y = true)) (slugSteps l) := by
    obtain ⟨t, ht⟩ := trimDashes_isPrefix (collapseDashes false (removeInvalid (spacesToDash false l)))
    have hc := (collapseDashes_chain false (removeInvalid (spacesToDash false l))).1.suffix
      (List.dropWhile_suffix isDash)
    rw [← ht] at hc
    exact hc.left_of_append
  have h1 : spacesToDash false (slugSteps l) = slugSteps l :=
    spacesToDash_id _ _ (fun c hc => isSpace_eq_false_of_isSlugChar (hslug c hc))
  have h2 : removeInvalid (slugSteps l) = slugSteps l :=
    List.filter_eq_self.mpr hslug
  have h3 : collapseDashes false (slugSteps l) = slugSteps l :=
    collapseDashes_id _ _ hchain (fun hf => by simp at hf)
  have h4 : trimDashes (slugSteps l) = slugSteps l :=
    trimDashes_id (trimDashes_head _) (trimDashes_getLast _)
  have e : slugSteps (slugSteps l) =
      trimDashes (collapseDashes false (removeInvalid (spacesToDash false (slugSteps l)))) := rfl
  rw [e, h1, h2, h3, h4]

/-! ### Words separated by white space -/

theorem spacesToDash_word :
    ∀ (xs : List Char) (b : Bool) (c : Char) (tail : List Char),
      isSpace c = false → (∀ x ∈ xs, isSpace x = false) →
      spacesToDash b (c :: xs ++ tail) = c :: xs ++ spacesToDash false tail
  | [], b, c, tail, hc, _ => by simp [spacesToDash, hc]
  | x :: xs, b, c, tail, hc, hxs => by
    have ih := spacesToDash_word xs false x tail (hxs x (List.mem_cons_self _ _))
      (fun y hy => hxs y (List.mem_cons_of_mem _ hy))
    simp only [List.cons_append] at ih ⊢
    rw [spacesToDash, if_neg (by simp [hc]), ih]

theorem spacesToDash_run :
    ∀ (sep tail : List Char), (∀ c ∈ sep, isSpace c = true) →
      spacesToDash true (sep ++ tail) = spacesToDash true tail
  | [], _, _ => rfl
  | c :: sep, tail, h => by
    have hc : isSpace c = true := h c (List.mem_cons_self _ _)
    simp [spacesToDash, hc,
      spacesToDash_run sep tail (fun x hx => h x (List.mem_cons_of_mem _ hx))]

theorem spacesToDash_sep (sep tail : List Char) (hne : sep ≠ [])
    (h : ∀ c ∈ sep, isSpace c = true) :
    spacesToDash false (sep ++ tail) = '-' :: spacesToDash true tail := by
  cases sep with
  | nil => exact absurd rfl hne
  | cons c sep =>
    have hc : isSpace c = true := h c (List.mem_cons_self _ _)
    simp [spacesToDash, hc,
      spacesToDash_run sep tail (fun x hx => h x (List.mem_cons_of_mem _ hx))]

theorem collapseDashes_word :
    ∀ (xs : List Char) (b : Bool) (c : Char) (tail : List Char),
      isDash c = false → (∀ x ∈ xs, isDash x = false) →
      collapseDashes b (c :: xs ++ tail) = c :: xs ++ collapseDashes false tail
  | [], b, c, tail, hc, _ => by simp [collapseDashes, hc]
  | x :: xs, b, c, tail, hc, hxs => by
    have ih := collapseDashes_word xs false x tail (hxs x (List.mem_cons_self _ _))
      (fun y hy => hxs y (List.mem_cons_of_mem _ hy))
    simp only [List.cons_append] at ih ⊢
    rw [collapseDashes, if_neg (by simp [hc]), ih]

theorem wordChars_cons (g : Glyph) (w : List Glyph) :
    wordChars (g :: w) = g.base :: (g.marks ++ wordChars w) := by
  simp [wordChars]

theorem wordChars_not_space {w : List Glyph}
    (h : ∀ g ∈ w, isBase g.base = true ∧
      ∀ m ∈ g.marks, isSlugChar m = false ∧ isSpace m = false) :
    ∀ c ∈ wordChars w, isSpace c = false := by
  intro c hc
  simp only [wordChars, List.mem_flatMap] at hc
  obtain ⟨g, hg, hcg⟩ := hc
  rcases List.mem_cons.mp hcg with hcb | hcm
  · rw [hcb]
    exact isSpace_eq_false_of_isSlugChar (isSlugChar_of_isBase (h g hg).1)
  · exact ((h g hg).2 c hcm).2

theorem removeInvalid_wordChars :
    ∀ (w : List Glyph), (∀ g ∈ w, isBase g.base = true ∧
      ∀ m ∈ g.marks, isSlugChar m = false ∧ isSpace m = false) →
      removeInvalid (wordChars w) = wordBases w
  | [], _ => rfl
  | g :: w, h => by
    have hg := h g (List.mem_cons_self _ _)
    have ih := removeInvalid_wordChars w (fun x hx => h x (List.mem_cons_of_mem _ hx))
    have hm : g.marks.filter isSlugChar = [] :=
      List.filter_eq_nil_iff.mpr (fun m hm => by simp [(hg.2 m hm).1])
    unfold removeInvalid at ih ⊢
    rw [wordChars_cons, List.filter_cons_of_pos (isSlugChar_of_isBase hg.1), List.filter_append,
      hm, ih]
    rfl

theorem wordBases_not_dash {w : List Glyph} (h : ∀ g ∈ w, isBase g.base = true) :
    ∀ c ∈ wordBases w, isDash c = false := by
  intro c hc
  simp only [wordBases, List.mem_map] at hc
  obtain ⟨g, hg, rfl⟩ := hc
  exact isDash_eq_false_of_isBase (h g hg)

/-- The stages of `slugSteps` on words separated by white-space runs. -/
theorem slugSteps_tail :
    ∀ (rest : List (List Char × List Glyph)),
      (∀ p ∈ rest, p.1 ≠ [] ∧ (∀ c ∈ p.1, isSpace c = true) ∧ validWord p.2) →
      spacesToDash false (rest.flatMap fun p => p.1 ++ wordChars p.2) =
        (rest.flatMap fun p => '-' :: wordChars p.2) ∧
      removeInvalid (rest.flatMap fun p => '-' :: wordChars p.2) =
        (rest.flatMap fun p => '-' :: wordBases p.2) ∧
      collapseDashes false (rest.flatMap fun p => '-' :: wordBases p.2) =
        (rest.flatMap fun p => '-' :: wordBases p.2)
  | [], _ => ⟨rfl, rfl, rfl⟩
  | p :: rest, h => by
    obtain ⟨hsep, hspace, hne, hw⟩ := h p (List.mem_cons_self _ _)
    obtain ⟨ih1, ih2, ih3⟩ := slugSteps_tail rest (fun q hq => h q (List.mem_cons_of_mem _ hq))
    obtain ⟨sep, w⟩ := p
    cases w with
    | nil => exact absurd rfl hne
    | cons g w =>
      have hns := wordChars_not_space hw
      have hnd := wordBases_not_dash (fun x hx => (hw x hx).1)
      have hrm := removeInvalid_wordChars (g :: w) hw
      rw [wordChars_cons] at hns hrm
      simp only [List.flatMap_cons, List.append_assoc]
      refine ⟨?_, ?_, ?_⟩
      · rw [spacesToDash_sep _ _ hsep hspace, wordChars_cons]
        rw [spacesToDash_word _ _ _ _ (hns _ (List.mem_cons_self _ _))
          (fun x hx => hns x (List.mem_cons_of_mem _ hx)), ih1]
        simp
      · unfold removeInvalid at ih2 hrm ⊢
        rw [List.cons_append, List.filter_cons_of_pos (by rfl), List.filter_append, ih2,
          wordChars_cons, hrm]
        simp
      · have hb : wordBases (g :: w) = g.base :: wordBases w := rfl
        rw [hb] at hnd ⊢
        have e : ∀ t : List Char,
            collapseDashes false ('-' :: t) = '-' :: collapseDashes true t := by
          intro t
          simp [collapseDashes, isDash]
        have hwd := collapseDashes_word (wordBases w) true g.base
          (rest.flatMap fun p => '-' :: wordBases p.2) (hnd _ (List.mem_cons_self _ _))
          (fun x hx => hnd x (List.mem_cons_of_mem _ hx))
        simp only [List.cons_append] at hwd ⊢
        rw [e, hwd, ih3]

theorem wordBases_getLast :
    ∀ (rest : List (List Char × List Glyph)) (w : List Glyph) (pre : List Char),
      (∀ p ∈ rest, p.1 ≠ [] ∧ (∀ c ∈ p.1, isSpace c = true) ∧ validWord p.2) →
      validWord w →
      (pre ++ (wordBases w ++ rest.flatMap fun p => '-' :: wordBases p.2)).getLast? ≠ some '-'
  | [], w, pre, _, hw => by
    have hne : wordBases w ≠ [] := by
      simpa [wordBases] using hw.1
    rw [List.flatMap_nil, List.append_nil, List.getLast?_append_of_ne_nil _ hne]
    intro h
    have := wordBases_not_dash (fun x hx => (hw.2 x hx).1) _ (List.mem_of_getLast?_eq_some h)
    simp [isDash] at this
  | p :: rest, w, pre, h, _ => by
    have ih := wordBases_getLast rest p.2 (pre ++ wordBases w ++ ['-'])
      (fun q hq => h q (List.mem_cons_of_mem _ hq)) (h p (List.mem_cons_self _ _)).2.2
    simpa using ih

theorem intercalate_cons (sep : List α) :
    ∀ (ys : List (List α)) (x : List α),
      List.intercalate sep (x :: ys) = x ++ ys.flatMap fun y => sep ++ y
  | [], x => by simp [List.intercalate]
  | y :: ys, x => by
    have ih := intercalate_cons sep ys y
    simp only [List.intercalate, List.intersperse, List.flatten_cons] at ih ⊢
    rw [ih]
    simp

theorem slugSteps_words (w : List Glyph) (rest : List (List Char × List Glyph))
    (hw : validWord w)
    (hrest : ∀ p ∈ rest, p.1 ≠ [] ∧ (∀ c ∈ p.1, isSpace c = true) ∧ validWord p.2) :
    slugSteps (wordChars w ++ rest.flatMap fun p => p.1 ++ wordChars p.2) =
      List.intercalate ['-'] (wordBases w :: rest.map fun p => wordBases p.2) := by
  obtain ⟨h1, h2, h3⟩ := slugSteps_tail rest hrest
  have hlast := wordBases_getLast rest w [] hrest hw
  obtain ⟨hne, hg⟩ := hw
  cases w with
  | nil => exact absurd rfl hne
  | cons g w =>
    have hns := wordChars_not_space hg
    have hnd := wordBases_not_dash (fun x hx => (hg x hx).1)
    have hrm := removeInvalid_wordChars (g :: w) hg
    have hb : wordBases (g :: w) = g.base :: wordBases w := rfl
    rw [wordChars_cons] at hns
    have s1 := spacesToDash_word (g.marks ++ wordChars w) false g.base
      (rest.flatMap fun p => p.1 ++ wordChars p.2) (hns _ (List.mem_cons_self _ _))
      (fun x hx => hns x (List.mem_cons_of_mem _ hx))
    rw [h1, ← wordChars_cons] at s1
    have s2 : removeInvalid (wordChars (g :: w) ++ rest.flatMap fun p => '-' :: wordChars p.2) =
        wordBases (g :: w) ++ rest.flatMap fun p => '-' :: wordBases p.2 := by
      unfold removeInvalid at h2 hrm ⊢
      rw [List.filter_append, h2, hrm]
    rw [hb] at hnd
    have s3 := collapseDashes_word (wordBases w) false g.base
      (rest.flatMap fun p => '-' :: wordBases p.2) (hnd _ (List.mem_cons_self _ _))
      (fun x hx => hnd x (List.mem_cons_of_mem _ hx))
    rw [h3, ← hb] at s3
    have s4 : trimDashes (wordBases (g :: w) ++ rest.flatMap fun p => '-' :: wordBases p.2) =
        wordBases (g :: w) ++ rest.flatMap fun p => '-' :: wordBases p.2 := by
      apply trimDashes_id
      · rw [hb, List.cons_append, List.head?_cons]
        intro h
        have := hnd g.base (List.mem_cons_self _ _)
        rw [Option.some.inj h] at this
        simp [isDash] at this
      · simpa using hlast
    have e : slugSteps (wordChars (g :: w) ++ rest.flatMap fun p => p.1 ++ wordChars p.2) =
        trimDashes (collapseDashes false (removeInvalid (spacesToDash false
          (wordChars (g :: w) ++ rest.flatMap fun p => p.1 ++ wordChars p.2)))) := rfl
    rw [e, s1, s2, s3, s4, intercalate_cons]
    simp [List.flatMap_map]

/-! ### The built-ins on slugs -/

theorem lookupTable_eq_none {n : Nat} :
    ∀ (t : List (Nat × List Nat)), (∀ p ∈ t, p.1 ≠ n) → lookupTable n t = none
  | [], _ => rfl
  | (k, v) :: rest, h => by
    have hk : k ≠ n := h (k, v) (List.mem_cons_self _ _)
    simp [lookupTable, hk,
      lookupTable_eq_none rest (fun p hp => h p (List.mem_cons_of_mem _ hp))]

theorem flatMap_mapChar_slug (table : List (Nat × List Nat))
    (htab : ∀ p ∈ table, ¬((0x61 ≤ p.1 ∧ p.1 ≤ 0x7A) ∨ (0x30 ≤ p.1 ∧ p.1 ≤ 0x39) ∨
      p.1 = 0x2D ∨ p.1 = 0x5F)) :
    ∀ (l : List Char), (∀ c ∈ l, isSlugChar c = true) → l.flatMap (mapChar table) = l
  | [], _ => rfl
  | c :: cs, h => by
    have hc := isSlugChar_iff.mp (h c (List.mem_cons_self _ _))
    have hn : (0x61 ≤ c.toNat ∧ c.toNat ≤ 0x7A) ∨ (0x30 ≤ c.toNat ∧ c.toNat ≤ 0x39) ∨
        c.toNat = 0x2D ∨ c.toNat = 0x5F := by
      rcases hc with hc | hc | hc | hc
      · exact Or.inl hc
      · exact Or.inr (Or.inl hc)
      · exact Or.inr (Or.inr (Or.inl (by rw [hc]; rfl)))
      · exact Or.inr (Or.inr (Or.inr (by rw [hc]; rfl)))
    have hnone : lookupTable c.toNat table = none :=
      lookupTable_eq_none table (fun p hp heq => htab p hp (heq ▸ hn))
    have ih := flatMap_mapChar_slug table htab cs (fun x hx => h x (List.mem_cons_of_mem _ hx))
    simp [mapChar, hnone, ih]

set_option maxRecDepth 100000 in
theorem toLowerCaseLatin_slug (s : String) (h : ∀ c ∈ s.data, isSlugChar c = true) :
    toLowerCaseLatin s = s := by
  have htab : ∀ p ∈ lowerTable, ¬((0x61 ≤ p.1 ∧ p.1 ≤ 0x7A) ∨ (0x30 ≤ p.1 ∧ p.1 ≤ 0x39) ∨
      p.1 = 0x2D ∨ p.1 = 0x5F) := by decide
  unfold toLowerCaseLatin
  rw [flatMap_mapChar_slug lowerTable htab s.data h]

set_option maxRecDepth 100000 in
theorem normalizeNFKDLatin_slug (s : String) (h : ∀ c ∈ s.data, isSlugChar c = true) :
    normalizeNFKDLatin s = s := by
  have htab : ∀ p ∈ nfkdTable, ¬((0x61 ≤ p.1 ∧ p.1 ≤ 0x7A) ∨ (0x30 ≤ p.1 ∧ p.1 ≤ 0x39) ∨
      p.1 = 0x2D ∨ p.1 = 0x5F) := by decide
  unfold normalizeNFKDLatin
  rw [flatMap_mapChar_slug nfkdTable htab s.data h]

/-! ## Theorems on the slug generator -/

/-- C8: `slugify` is idempotent, for every string, whenever the two built-ins
leave strings over `[a-z0-9-_]` unchanged (as `toLowerCase` and
`normalize('NFKD')` do). -/
theorem slugify_idempotent (toLowerCase normalizeNFKD : String → String)
    (hLower : ∀ s : String, (∀ c ∈ s.data, isSlugChar c = true) → toLowerCase s = s)
    (hNFKD : ∀ s : String, (∀ c ∈ s.data, isSlugChar c = true) → normalizeNFKD s = s)
    (x : String) :
    slugify toLowerCase normalizeNFKD (slugify toLowerCase normalizeNFKD x) =
      slugify toLowerCase normalizeNFKD x := by
  have hslug : ∀ c ∈ (slugify toLowerCase normalizeNFKD x).data, isSlugChar c = true :=
    slugSteps_isSlugChar _
  have e : slugify toLowerCase normalizeNFKD (slugify toLowerCase normalizeNFKD x) =
      ⟨slugSteps (normalizeNFKD (toLowerCase (slugify toLowerCase normalizeNFKD x))).data⟩ := rfl
  rw [e, hLower _ hslug, hNFKD _ hslug]
  show String.mk (slugSteps (slugSteps _)) = String.mk (slugSteps _)
  rw [slugSteps_idem]

/-- Witness of C8 with the built-ins on Latin text, on a title with capitals,
diacritics, hyphens and white space. -/
theorem slugify_idempotent_witness :
    (∀ s : String, (∀ c ∈ s.data, isSlugChar c = true) → toLowerCaseLatin s = s) ∧
    (∀ s : String, (∀ c ∈ s.data, isSlugChar c = true) → normalizeNFKDLatin s = s) ∧
    slugify toLowerCaseLatin normalizeNFKDLatin
        (slugify toLowerCaseLatin normalizeNFKDLatin " -Çok -- GÜZEL_şehir- ") =
      slugify toLowerCaseLatin normalizeNFKDLatin " -Çok -- GÜZEL_şehir- " ∧
    slugify toLowerCaseLatin normalizeNFKDLatin " -Çok -- GÜZEL_şehir- " = "cok-guzel_sehir" :=
  ⟨toLowerCaseLatin_slug, normalizeNFKDLatin_slug,
    slugify_idempotent _ _ toLowerCaseLatin_slug normalizeNFKDLatin_slug _, by decide⟩

/-- C9: every character of a slug is one of a-z, 0-9, hyphen or underscore,
and a slug neither begins nor ends with a hyphen; this holds whatever the two
built-ins return. -/
theorem slugify_alphabet (toLowerCase normalizeNFKD : String → String) (x : String) :
    (∀ c ∈ (slugify toLowerCase normalizeNFKD x).data,
      ('a' ≤ c ∧ c ≤ 'z') ∨ ('0' ≤ c ∧ c ≤ '9') ∨ c = '-' ∨ c = '_') ∧
    (slugify toLowerCase normalizeNFKD x).data.head? ≠ some '-' ∧
    (slugify toLowerCase normalizeNFKD x).data.getLast? ≠ some '-' :=
  ⟨fun c hc => isSlugChar_iff.mp (slugSteps_isSlugChar _ c hc),
    trimDashes_head _, trimDashes_getLast _⟩

/-- C10: when the lower-cased text decomposes under NFKD into words of ASCII
lower-case letters and digits, each possibly followed by combining marks, the
words separated by white-space runs, the slug is the base characters of the
words joined by single hyphens. -/
theorem slugify_words (toLowerCase normalizeNFKD : String → String) (text : String)
    (w : List Glyph) (rest : List (List Char × List Glyph))
    (hdec : (normalizeNFKD (toLowerCase text)).data =
      wordChars w ++ rest.flatMap fun p => p.1 ++ wordChars p.2)
    (hw : validWord w)
    (hrest : ∀ p ∈ rest, p.1 ≠ [] ∧ (∀ c ∈ p.1, isSpace c = true) ∧ validWord p.2) :
    (slugify toLowerCase normalizeNFKD text).data =
      List.intercalate ['-'] (wordBases w :: rest.map fun p => wordBases p.2) := by
  show slugSteps (normalizeNFKD (toLowerCase text)).data = _
  rw [hdec]
  exact slugSteps_words w rest hw hrest

/-- Witness of C10, the example of the specification: with the built-ins on
Latin text, "Orta Çağ Tarihi" lower-cases and decomposes into the words
"orta", "çağ" (with a cedilla and a breve as combining marks) and "tarihi",
and its slug is "orta-cag-tarihi". -/
theorem slugify_words_witness :
    (normalizeNFKDLatin (toLowerCaseLatin "Orta Çağ Tarihi")).data =
      wordChars ortaWord ++
        [([' '], cagWord), ([' '], tarihiWord)].flatMap (fun p => p.1 ++ wordChars p.2) ∧
    (slugify toLowerCaseLatin normalizeNFKDLatin "Orta Çağ Tarihi").data =
      List.intercalate ['-'] [wordBases ortaWord, wordBases cagWord, wordBases tarihiWord] ∧
    slugify toLowerCaseLatin normalizeNFKDLatin "Orta Çağ Tarihi" = "orta-cag-tarihi" :=
  ⟨by decide,
    slugify_words toLowerCaseLatin normalizeNFKDLatin "Orta Çağ Tarihi" ortaWord
      [([' '], cagWord), ([' '], tarihiWord)] (by decide)
      (by unfold validWord; decide)
      (by unfold validWord; decide),
    by decide⟩

/-! ## Lemmas on the search -/

theorem orderedInsert_append_of_not {r : α → α → Prop} [DecidableRel r] (a : α) :
    ∀ (xs ys : List α), (∀ x ∈ xs, ¬r a x) →
      List.orderedInsert r a (xs ++ ys) = xs ++ List.orderedInsert r a ys
  | [], _, _ => rfl
  | x :: xs, ys, h => by
    have hx : ¬r a x := h x (List.mem_cons_self _ _)
    have ih := orderedInsert_append_of_not a xs ys (fun y hy => h y (List.mem_cons_of_mem _ hy))
    simp [List.orderedInsert, hx, ih]

theorem orderedInsert_of_head {r : α → α → Prop} [DecidableRel r] (a : α) :
    ∀ (ys : List α), (∀ y ∈ ys.head?, r a y) → List.orderedInsert r a ys = a :: ys
  | [], _ => rfl
  | y :: ys, h => by
    have hy : r a y := h y (by simp)
    simp [List.orderedInsert, hy]

/-- A stable sort by a two-valued key is a stable partition. -/
theorem insertionSort_flag (m : α → Bool) :
    ∀ (l : List α),
      List.insertionSort (fun a b => m a = true ∨ m b = false) l =
        l.filter m ++ l.filter fun a => !m a
  | [] => rfl
  | a :: l => by
    rw [List.insertionSort, insertionSort_flag m l]
    by_cases ha : m a = true
    · rw [orderedInsert_of_head a _ (fun y _ => Or.inl ha)]
      simp [List.filter_cons, ha]
    · have ha' : m a = false := by simpa using ha
      rw [orderedInsert_append_of_not a _ _ (fun x hx => by
        have hmx : m x = true := (List.mem_filter.mp hx).2
        simp [ha', hmx])]
      rw [orderedInsert_of_head a _ (fun y hy => by
        have hy' : y ∈ l.filter fun a => !m a := List.mem_of_mem_head? hy
        have hmy := (List.mem_filter.mp hy').2
        right
        simpa using hmy)]
      simp [List.filter_cons, ha']

theorem titleFlag_eq (env : SearchEnv) (ql : JStr) (a : SearchRow) :
    titleFlag env ql a = if includes (env.toLowerCase (orEmpty a.title)) ql then 1 else 0 := rfl

theorem rpcCompare_le (env : SearchEnv) (ql : JStr) (a b : SearchRow) :
    rpcCompare env ql a b ≤ 0 ↔
      (includes (env.toLowerCase (orEmpty a.title)) ql = true ∨
        includes (env.toLowerCase (orEmpty b.title)) ql = false) := by
  unfold rpcCompare
  rw [titleFlag_eq, titleFlag_eq]
  by_cases ha : includes (env.toLowerCase (orEmpty a.title)) ql = true <;>
    by_cases hb : includes (env.toLowerCase (orEmpty b.title)) ql = true <;>
    simp [ha, hb]

theorem jsSort_rpcCompare (env : SearchEnv) (ql : JStr) (rows : List SearchRow) :
    jsSort (rpcCompare env ql) rows =
      rows.filter (fun a => includes (env.toLowerCase (orEmpty a.title)) ql) ++
        rows.filter (fun a => !includes (env.toLowerCase (orEmpty a.title)) ql) := by
  rw [← insertionSort_flag]
  unfold jsSort
  congr 1
  funext a b
  exact propext (rpcCompare_le env ql a b)

theorem stripTagsAux_length :
    ∀ (l : JStr) (st : Option JStr),
      (stripTagsAux st l).length ≤
        l.length + (match st with
          | none => 0
          | some buf => buf.length + 1)
  | [], none => by simp [stripTagsAux]
  | [], some buf => by simp [stripTagsAux]
  | c :: cs, none => by
    have ih1 := stripTagsAux_length cs (some [])
    have ih2 := stripTagsAux_length cs none
    by_cases hc : c = 60
    · simp only [stripTagsAux, hc, if_true, List.length_cons, List.length_nil] at ih1 ⊢
      omega
    · simp only [stripTagsAux, hc, if_false, List.length_cons] at ih2 ⊢
      omega
  | c :: cs, some buf => by
    have ih1 := stripTagsAux_length cs (some (c :: buf))
    have ih2 := stripTagsAux_length cs none
    by_cases hc : c = 62
    · by_cases hb : buf.isEmpty = true
      · simp only [stripTagsAux, hc, hb, if_true, List.length_cons] at ih2 ⊢
        omega
      · simp only [stripTagsAux, hc, hb, if_true, List.length_cons] at ih2 ⊢
        simp only [Bool.false_eq_true, if_false]
        omega
    · simp only [stripTagsAux, hc, if_false, List.length_cons] at ih1 ⊢
      omega

theorem stripTags_length (s : JStr) : (stripTags s).length ≤ s.length := by
  simpa [stripTags] using stripTagsAux_length s none

theorem substring_window (s : JStr) (start : Nat) :
    substring s start (min (start + 180) s.length) = (s.drop start).take 180 := by
  unfold substring
  by_cases h : start ≤ s.length
  · have h1 : min start s.length = start := Nat.min_eq_left h
    have h2 : min (min (start + 180) s.length) s.length = min (start + 180) s.length := by
      omega
    have h3 : min start (min (start + 180) s.length) = start := by omega
    have h4 : max start (min (start + 180) s.length) = min (start + 180) s.length := by omega
    simp only [h1, h2, h3, h4]
    rw [List.take_eq_take]
    simp only [List.length_drop]
    omega
  · have h1 : min start s.length = s.length := by omega
    have h2 : min (min (start + 180) s.length) s.length = s.length := by omega
    simp only [h1, h2, Nat.min_self, Nat.max_self, Nat.sub_self, List.take_zero]
    rw [List.drop_eq_nil_of_le (by omega)]
    rfl

theorem mapThrowing_isSome {f : α → Option β} :
    ∀ (l : List α), (∀ a ∈ l, (f a).isSome = true) → ∃ bs, mapThrowing f l = some bs
  | [], _ => ⟨[], rfl⟩
  | a :: as, h => by
    obtain ⟨b, hb⟩ := Option.isSome_iff_exists.mp (h a (List.mem_cons_self _ _))
    obtain ⟨bs, hbs⟩ := mapThrowing_isSome as (fun x hx => h x (List.mem_cons_of_mem _ hx))
    exact ⟨b :: bs, by simp [mapThrowing, hb, hbs]⟩

theorem scoreEntry_isSome (env : SearchEnv) (q : JStr) (p : SearchPage)
    (h : (env.matchCount (env.toLowerCase q) (env.toLowerCase (orEmpty p.content))).isSome =
      true) :
    (scoreEntry env q p).isSome = true := by
  obtain ⟨n, hn⟩ := Option.isSome_iff_exists.mp h
  simp [scoreEntry, fallbackScore, baseScore, hn]

/-- The stable sort by descending score: a permutation, in non-increasing
score order, that keeps `a` before `b` whenever `a` came first and does not
score less. -/
theorem jsSort_score (scored : List ScoredHit) :
    (jsSort (fun a b => b.score - a.score) scored).Perm scored ∧
    (jsSort (fun a b => b.score - a.score) scored).Pairwise (fun a b => b.score ≤ a.score) ∧
    (∀ a b, List.Sublist [a, b] scored → b.score ≤ a.score →
      List.Sublist [a, b] (jsSort (fun a b => b.score - a.score) scored)) := by
  have htotal : IsTotal ScoredHit (fun a b => b.score ≤ a.score) :=
    ⟨fun a b => le_total b.score a.score⟩
  have htrans : IsTrans ScoredHit (fun a b => b.score ≤ a.score) :=
    ⟨fun _ _ _ hab hbc => le_trans hbc hab⟩
  have hsort : jsSort (fun a b => b.score - a.score) scored =
      scored.insertionSort (fun a b => b.score ≤ a.score) := by
    have hr : (fun a b : ScoredHit => b.score - a.score ≤ 0) =
        fun a b => b.score ≤ a.score := by
      funext a b
      exact propext sub_nonpos
    unfold jsSort
    simp only [hr]
  rw [hsort]
  exact ⟨List.perm_insertionSort _ _, List.sorted_insertionSort _ _,
    fun a b hab hs => List.pair_sublist_insertionSort hs hab⟩

theorem doSearch_fallback (env : SearchEnv) (store : SearchStore) (q : JStr)
    (data : List SearchPage) (hits : List SearchHit) (hq : 3 ≤ q.length)
    (hrpc : (store.rpcSearch q).getD [] = [])
    (hdata : store.ilikeSearch (37 :: (q ++ [37])) = .ok (some data)) (hne : data ≠ [])
    (hres : fallbackResults env q data = some hits) :
    doSearch env store q =
      ([.rpcSearch q, .ilikeSearch (37 :: (q ++ [37]))], .hits hits) := by
  have h1 : ¬q.length < 3 := by omega
  have h2 : q ≠ [] := by
    intro h
    rw [h] at hq
    simp at hq
  simp [doSearch, h1, h2, hrpc, hdata, hne, hres]

/-! ## Theorems on the search -/

/-- C17: a query of fewer than three code units, the empty one included, makes
`doSearch` call the store not at all (no RPC, no fallback query) and end in
the "type at least 3 characters" view. -/
theorem search_min_length_gate (env : SearchEnv) (store : SearchStore) (q : JStr)
    (h : q.length < 3) :
    doSearch env store q = ([], .needMoreChars) := by
  simp [doSearch, h]

/-- Witness of C17 on the query `ab`. -/
theorem search_min_length_gate_witness :
    (utf16 "ab").length < 3 ∧
    doSearch sampleEnv dragonStore (utf16 "ab") = ([], .needMoreChars) :=
  ⟨by decide, search_min_length_gate _ _ _ (by decide)⟩

/-- C16: when the RPC returns a non-empty row list, `doSearch` makes that one
call and renders the first 20 entries of the rows whose lower-cased title
contains the lower-cased query, in server order, followed by the other rows,
in server order. -/
theorem rpc_resort_stable_partition (env : SearchEnv) (store : SearchStore) (q : JStr)
    (rows : List SearchRow) (hq : 3 ≤ q.length) (hrows : store.rpcSearch q = some rows)
    (hne : rows ≠ []) :
    doSearch env store q =
      ([.rpcSearch q],
        .rows ((rows.filter (fun a =>
            includes (env.toLowerCase (orEmpty a.title)) (env.toLowerCase q)) ++
          rows.filter (fun a =>
            !includes (env.toLowerCase (orEmpty a.title)) (env.toLowerCase q))).take 20)) := by
  have h1 : ¬q.length < 3 := by omega
  have h2 : q ≠ [] := by
    intro h
    rw [h] at hq
    simp at hq
  simp [doSearch, h1, h2, hrows, hne, jsSort_rpcCompare]

/-- Witness of C16 on `rpcStore`: the two rows with `dragon` in the title come
first, each pair in server order. -/
theorem rpc_resort_stable_partition_witness :
    doSearch sampleEnv rpcStore (utf16 "dragon") =
      ([.rpcSearch (utf16 "dragon")],
        .rows [titledRow "Dragon Lore", titledRow "The dragon", titledRow "Lore",
          titledRow "Tale"]) :=
  (rpc_resort_stable_partition sampleEnv rpcStore (utf16 "dragon") _ (by decide) rfl
    (by simp)).trans (by decide)

theorem dragon_scoreEntry :
    scoreEntry sampleEnv (utf16 "dragon") dragonLore =
      some ⟨⟨some (utf16 "Dragon Lore"), none, none, []⟩, 220⟩ ∧
    scoreEntry sampleEnv (utf16 "dragon") loreOfTheDragon =
      some ⟨⟨some (utf16 "Lore of the Dragon"), none, none, utf16 "dragon dragon..."⟩, 228⟩ := by
  have hb1 : baseScore sampleEnv (sampleEnv.toLowerCase (utf16 "dragon")) dragonLore =
      some 220 := by decide
  have hb2 : baseScore sampleEnv (sampleEnv.toLowerCase (utf16 "dragon")) loreOfTheDragon =
      some 228 := by decide
  have he1 : buildExcerpt sampleEnv (utf16 "dragon") (sampleEnv.toLowerCase (utf16 "dragon"))
      dragonLore = [] := by decide
  have he2 : buildExcerpt sampleEnv (utf16 "dragon") (sampleEnv.toLowerCase (utf16 "dragon"))
      loreOfTheDragon = utf16 "dragon dragon..." := by decide
  constructor
  · simp only [scoreEntry, fallbackScore, hb1, he1]
    simp [dragonLore, strTruthy]
  · simp only [scoreEntry, fallbackScore, hb2, he2]
    simp [loreOfTheDragon, strTruthy]

theorem dragon_fallbackResults :
    fallbackResults sampleEnv (utf16 "dragon") [dragonLore, loreOfTheDragon] =
      some [⟨some (utf16 "Lore of the Dragon"), none, none, utf16 "dragon dragon..."⟩,
            ⟨some (utf16 "Dragon Lore"), none, none, []⟩] := by
  simp only [fallbackResults, mapThrowing, dragon_scoreEntry.1, dragon_scoreEntry.2, jsSort,
    List.insertionSort, List.orderedInsert]
  norm_num

theorem dragon_doSearch :
    doSearch sampleEnv dragonStore (utf16 "dragon") =
      ([.rpcSearch (utf16 "dragon"), .ilikeSearch (utf16 "%dragon%")],
        .hits [⟨some (utf16 "Lore of the Dragon"), none, none, utf16 "dragon dragon..."⟩,
               ⟨some (utf16 "Dragon Lore"), none, none, []⟩]) := by
  have hq : (utf16 "dragon").isEmpty = false := by decide
  have hl : ¬(utf16 "dragon").length < 3 := by decide
  have hlike : 37 :: (utf16 "dragon" ++ [37]) = utf16 "%dragon%" := by decide
  simp [doSearch, hq, hl, dragonStore, dragon_fallbackResults, hlike]

/-- C11, as stated, fails: in the fallback result for the two candidates and
the query `dragon`, "Lore of the Dragon" comes first and "Dragon Lore" second. -/
theorem dragon_lore_not_first :
    ∃ first second : SearchHit,
      (doSearch sampleEnv dragonStore (utf16 "dragon")).2 = .hits [first, second] ∧
      first.title = some (utf16 "Lore of the Dragon") ∧
      second.title = some (utf16 "Dragon Lore") :=
  ⟨⟨some (utf16 "Lore of the Dragon"), none, none, utf16 "dragon dragon..."⟩,
    ⟨some (utf16 "Dragon Lore"), none, none, []⟩, by rw [dragon_doSearch], rfl, rfl⟩

/-- C11, amended: for the two candidates and the query `dragon`, "Dragon Lore"
scores 220 (title match at index 0, no content match), "Lore of the Dragon"
scores 228 (title match at index 12, two content matches), and the fallback
result lists "Lore of the Dragon" before "Dragon Lore". -/
theorem dragon_example_ranking :
    (scoreEntry sampleEnv (utf16 "dragon") dragonLore).map ScoredHit.score = some 220 ∧
    (scoreEntry sampleEnv (utf16 "dragon") loreOfTheDragon).map ScoredHit.score = some 228 ∧
    fallbackResults sampleEnv (utf16 "dragon") [dragonLore, loreOfTheDragon] =
      some [⟨some (utf16 "Lore of the Dragon"), none, none, utf16 "dragon dragon..."⟩,
            ⟨some (utf16 "Dragon Lore"), none, none, []⟩] := by
  refine ⟨?_, ?_, dragon_fallbackResults⟩
  · rw [dragon_scoreEntry.1]; rfl
  · rw [dragon_scoreEntry.2]; rfl

/-- C12, evaluated where it fails: for the query `...` and a page titled
"Wait..." with content "abcdef", the code counts the two matches of the
pattern `...` and scores 236, while the page holds no literal occurrence of
the query and the formula of the claim gives 216. -/
theorem score_counts_pattern_matches :
    baseScore sampleEnv (sampleEnv.toLowerCase (utf16 "...")) waitPage = some 236 ∧
    fallbackScore sampleEnv (sampleEnv.toLowerCase (utf16 "...")) waitPage = some 236 ∧
    specScore sampleEnv (utf16 "...") waitPage = 216 ∧
    literalCount (utf16 "...") 0 (utf16 "abcdef") = 0 ∧
    sampleEnv.matchCount (utf16 "...") (utf16 "abcdef") = some 2 := by
  have hb : baseScore sampleEnv (sampleEnv.toLowerCase (utf16 "...")) waitPage =
      some 236 := by decide
  refine ⟨hb, ?_, by decide, by decide, by decide⟩
  simp only [fallbackScore, hb]
  simp [waitPage, strTruthy]

/-- C13: when the pattern of the query compiles, the fallback result exists,
has at most 20 entries, and is the first 20 of the scored candidates put in
non-increasing score order, a candidate staying before every later candidate
that does not score more (so equal scores keep their input order); the
entries of the result are of a type without score. -/
theorem fallback_results_order (env : SearchEnv) (q : JStr) (data : List SearchPage)
    (hre : ∀ p ∈ data,
      (env.matchCount (env.toLowerCase q) (env.toLowerCase (orEmpty p.content))).isSome =
        true) :
    ∃ scored sorted : List ScoredHit,
      mapThrowing (scoreEntry env q) data = some scored ∧
      fallbackResults env q data = some ((sorted.take 20).map ScoredHit.hit) ∧
      (∀ store : SearchStore, 3 ≤ q.length → (store.rpcSearch q).getD [] = [] →
        store.ilikeSearch (37 :: (q ++ [37])) = .ok (some data) → data ≠ [] →
        (doSearch env store q).2 = .hits ((sorted.take 20).map ScoredHit.hit)) ∧
      ((sorted.take 20).map ScoredHit.hit).length ≤ 20 ∧
      sorted.Perm scored ∧
      sorted.Pairwise (fun a b => b.score ≤ a.score) ∧
      (∀ a b, List.Sublist [a, b] scored → b.score ≤ a.score → List.Sublist [a, b] sorted) ∧
      (∀ a ∈ sorted.take 20, ∀ b ∈ sorted.drop 20, b.score ≤ a.score) := by
  obtain ⟨scored, hs⟩ := mapThrowing_isSome data
    (fun p hp => scoreEntry_isSome env q p (hre p hp))
  obtain ⟨hperm, hsorted, hstable⟩ := jsSort_score scored
  have hres : fallbackResults env q data =
      some (((jsSort (fun a b => b.score - a.score) scored).take 20).map ScoredHit.hit) := by
    simp [fallbackResults, hs]
  refine ⟨scored, jsSort (fun a b => b.score - a.score) scored, hs, hres, ?_, ?_, hperm,
    hsorted, hstable, ?_⟩
  · intro store hq hrpc hdata hne
    exact congrArg Prod.snd (doSearch_fallback env store q data _ hq hrpc hdata hne hres)
  · simp [List.length_take]
  · intro a ha b hb
    exact List.Sorted.rel_of_mem_take_of_mem_drop hsorted ha hb

/-- Witness of C13 on the two candidates of the ranking example: the result
is the two hits with the higher score first. -/
theorem fallback_results_order_witness :
    (∀ p ∈ [dragonLore, loreOfTheDragon],
      (sampleEnv.matchCount (sampleEnv.toLowerCase (utf16 "dragon"))
        (sampleEnv.toLowerCase (orEmpty p.content))).isSome = true) ∧
    ∃ scored sorted : List ScoredHit,
      mapThrowing (scoreEntry sampleEnv (utf16 "dragon")) [dragonLore, loreOfTheDragon] =
        some scored ∧
      fallbackResults sampleEnv (utf16 "dragon") [dragonLore, loreOfTheDragon] =
        some ((sorted.take 20).map ScoredHit.hit) ∧
      (∀ store : SearchStore, 3 ≤ (utf16 "dragon").length →
        (store.rpcSearch (utf16 "dragon")).getD [] = [] →
        store.ilikeSearch (37 :: (utf16 "dragon" ++ [37])) =
          .ok (some [dragonLore, loreOfTheDragon]) →
        [dragonLore, loreOfTheDragon] ≠ [] →
        (doSearch sampleEnv store (utf16 "dragon")).2 =
          .hits ((sorted.take 20).map ScoredHit.hit)) ∧
      ((sorted.take 20).map ScoredHit.hit).length ≤ 20 ∧
      sorted.Perm scored ∧
      sorted.Pairwise (fun a b => b.score ≤ a.score) ∧
      (∀ a b, List.Sublist [a, b] scored → b.score ≤ a.score → List.Sublist [a, b] sorted) ∧
      (∀ a ∈ sorted.take 20, ∀ b ∈ sorted.drop 20, b.score ≤ a.score) :=
  have hre : ∀ p ∈ [dragonLore, loreOfTheDragon],
      (sampleEnv.matchCount (sampleEnv.toLowerCase (utf16 "dragon"))
        (sampleEnv.toLowerCase (orEmpty p.content))).isSome = true := by decide
  ⟨hre, fallback_results_order sampleEnv (utf16 "dragon") _ hre⟩

/-- C14, evaluated where it fails: for "Lore of the Dragon", whose content is
`dragon dragon`, and the query `dragon` the match is at index 0 and the
window, from 0 to 13, is the whole content, yet the excerpt gets the trailing
dots: the test for them compares the end of the match, not the end of the
window, with the content length. -/
theorem trailing_dots_on_full_window :
    indexOf (sampleEnv.toLowerCase (orEmpty loreOfTheDragon.content))
      (sampleEnv.toLowerCase (utf16 "dragon")) = 0 ∧
    min (0 + 180) (orEmpty loreOfTheDragon.content).length =
      (orEmpty loreOfTheDragon.content).length ∧
    buildExcerpt sampleEnv (utf16 "dragon") (sampleEnv.toLowerCase (utf16 "dragon"))
      loreOfTheDragon = utf16 "dragon dragon" ++ dots := by
  refine ⟨by decide, by decide, by decide⟩

/-- The excerpt as the code computes it: with `idx` the index of the
lower-cased query in the lower-cased content and `start = max(0, idx - 60)`,
the tag-stripped window of the content from `start`, with leading dots when
`start > 0` and trailing dots when `idx + q.length` is less than the content
length. -/
theorem buildExcerpt_found (env : SearchEnv) (q : JStr) (p : SearchPage) (idx : Int)
    (hidx : indexOf (env.toLowerCase (orEmpty p.content)) (env.toLowerCase q) = idx)
    (hfound : 0 ≤ idx) :
    buildExcerpt env q (env.toLowerCase q) p =
      (if 0 < (idx - 60).toNat then dots else []) ++
      stripTags (substring (orEmpty p.content) (idx - 60).toNat
        (min ((idx - 60).toNat + 180) (orEmpty p.content).length)) ++
      (if idx + (q.length : Int) < ((orEmpty p.content).length : Int) then dots else []) := by
  unfold buildExcerpt
  simp only [hidx, hfound, if_true]
  by_cases h1 : 0 < (idx - 60).toNat <;>
    by_cases h2 : idx + (q.length : Int) < ((orEmpty p.content).length : Int) <;>
    simp [h1, h2]

/-- On `longPage` the match is at index 70, the window starts at 10 and gets
leading dots; the match ends the content, so there are no trailing dots. -/
theorem buildExcerpt_found_example :
    indexOf (sampleEnv.toLowerCase (orEmpty longPage.content))
      (sampleEnv.toLowerCase (utf16 "dragon")) = 70 ∧
    buildExcerpt sampleEnv (utf16 "dragon") (sampleEnv.toLowerCase (utf16 "dragon")) longPage =
      dots ++ (List.replicate 60 120 ++ utf16 "dragon") :=
  have hidx : indexOf (sampleEnv.toLowerCase (orEmpty longPage.content))
      (sampleEnv.toLowerCase (utf16 "dragon")) = 70 := by decide
  ⟨hidx, (buildExcerpt_found sampleEnv (utf16 "dragon") longPage 70 hidx (by decide)).trans
    (by decide)⟩

/-- When the lower-cased content does not contain the lower-cased query the
excerpt is empty; otherwise, with `idx` the index of the query in the
lower-cased content, the excerpt is, between optional dots, the tag-stripped
text of the window of the content that starts at `max(0, idx - 60)` and holds
at most 180 units, so that the stripped text has at most 180 units. -/
theorem buildExcerpt_window (env : SearchEnv) (q : JStr) (p : SearchPage) (idx : Int)
    (hidx : indexOf (env.toLowerCase (orEmpty p.content)) (env.toLowerCase q) = idx) :
    (idx < 0 → buildExcerpt env q (env.toLowerCase q) p = []) ∧
    (0 ≤ idx → ∃ lead window trail : JStr,
      buildExcerpt env q (env.toLowerCase q) p = lead ++ stripTags window ++ trail ∧
      (lead = [] ∨ lead = dots) ∧ (trail = [] ∨ trail = dots) ∧
      window = substring (orEmpty p.content) (idx - 60).toNat
        (min ((idx - 60).toNat + 180) (orEmpty p.content).length) ∧
      window = ((orEmpty p.content).drop (idx - 60).toNat).take 180 ∧
      ((idx - 60).toNat : Int) ≤ idx ∧ idx - ((idx - 60).toNat : Int) ≤ 60 ∧
      window.length ≤ 180 ∧ (stripTags window).length ≤ 180) := by
  constructor
  · intro hneg
    have h : ¬(0 ≤ idx) := by omega
    simp [buildExcerpt, hidx, h]
  · intro hfound
    refine ⟨if 0 < (idx - 60).toNat then dots else [], _,
      if idx + (q.length : Int) < ((orEmpty p.content).length : Int) then dots else [],
      ?_, ?_, ?_, rfl, substring_window _ _, by omega, by omega, ?_, ?_⟩
    · unfold buildExcerpt
      simp only [hidx, hfound, if_true]
      by_cases h1 : 0 < (idx - 60).toNat <;>
        by_cases h2 : idx + (q.length : Int) < ((orEmpty p.content).length : Int) <;>
        simp [h1, h2]
    · by_cases h1 : 0 < (idx - 60).toNat <;> simp [h1]
    · by_cases h2 : idx + (q.length : Int) < ((orEmpty p.content).length : Int) <;> simp [h2]
    · rw [substring_window]
      exact List.length_take_le _ _
    · refine le_trans (stripTags_length _) ?_
      rw [substring_window]
      exact List.length_take_le _ _

/-- On `taggedPage` the match is at index 8, the window is the whole content,
and the excerpt is its text without the tags. -/
theorem buildExcerpt_window_example :
    indexOf (sampleEnv.toLowerCase (orEmpty taggedPage.content))
      (sampleEnv.toLowerCase (utf16 "dragon")) = 8 ∧
    buildExcerpt sampleEnv (utf16 "dragon") (sampleEnv.toLowerCase (utf16 "dragon"))
      taggedPage = utf16 "A dragon sleeps..." ∧
    ∃ lead window trail : JStr,
      buildExcerpt sampleEnv (utf16 "dragon") (sampleEnv.toLowerCase (utf16 "dragon"))
        taggedPage = lead ++ stripTags window ++ trail ∧
      window = utf16 "<p>A <b>dragon</b> sleeps</p>" ∧ (stripTags window).length ≤ 180 := by
  have hidx : indexOf (sampleEnv.toLowerCase (orEmpty taggedPage.content))
      (sampleEnv.toLowerCase (utf16 "dragon")) = 8 := by decide
  obtain ⟨lead, window, trail, h1, _, _, h4, _, _, _, _, h9⟩ :=
    (buildExcerpt_window sampleEnv (utf16 "dragon") taggedPage 8 hidx).2 (by decide)
  refine ⟨hidx, by decide, lead, window, trail, h1, ?_, h9⟩
  rw [h4]
  decide

set_option maxRecDepth 100000 in
theorem dottedPage_values :
    indexOf (orEmpty dottedPage.content) (utf16 "dragon") = 66 ∧
    (orEmpty dottedPage.content).length = 79 ∧
    indexOf (sampleEnv.toLowerCase (orEmpty dottedPage.content))
      (sampleEnv.toLowerCase (utf16 "dragon")) = 131 ∧
    substring (orEmpty dottedPage.content) 71 (min (71 + 180) 79) = utf16 "n sleeps" ∧
    buildExcerpt sampleEnv (utf16 "dragon") (sampleEnv.toLowerCase (utf16 "dragon"))
      dottedPage = dots ++ utf16 "n sleeps" ∧
    includes (sampleEnv.toLowerCase (buildExcerpt sampleEnv (utf16 "dragon")
      (sampleEnv.toLowerCase (utf16 "dragon")) dottedPage))
      (sampleEnv.toLowerCase (utf16 "dragon")) = false := by
  refine ⟨by decide, by decide, by decide, by decide, by decide, by decide⟩

/-- C15, evaluated where it fails: in the content of `dottedPage` the query
`dragon` stands at index 66, behind 65 letters U+0130 and a blank; lower-casing
turns each of those letters into two units, so the index taken from the
lower-cased content is 131, and the window cut from the content itself starts
at `131 - 60 = 71`, behind the start of the match: the excerpt is
`...n sleeps` and does not contain the query. -/
theorem excerpt_misses_match :
    indexOf (orEmpty dottedPage.content) (utf16 "dragon") = 66 ∧
    (orEmpty dottedPage.content).length = 79 ∧
    indexOf (sampleEnv.toLowerCase (orEmpty dottedPage.content))
      (sampleEnv.toLowerCase (utf16 "dragon")) = 131 ∧
    substring (orEmpty dottedPage.content) 71 (min (71 + 180) 79) = utf16 "n sleeps" ∧
    buildExcerpt sampleEnv (utf16 "dragon") (sampleEnv.toLowerCase (utf16 "dragon"))
      dottedPage = dots ++ utf16 "n sleeps" ∧
    includes (sampleEnv.toLowerCase (buildExcerpt sampleEnv (utf16 "dragon")
      (sampleEnv.toLowerCase (utf16 "dragon")) dottedPage))
      (sampleEnv.toLowerCase (utf16 "dragon")) = false :=
  dottedPage_values

/-! ## Lemmas on the ancestor walk -/

theorem parentLoop_cursor (fetch : JVal → Option PageRef) (n : Nat) (v : JVal)
    (chain : List PageRef) (fetched : List JVal) :
    parentLoop fetch n (parentCursor v) chain fetched = parentLoop fetch n v chain fetched := by
  by_cases h : v.truthy = true
  · simp [parentCursor, h]
  · have hf : v.truthy = false := by simpa using h
    have hp : parentCursor v = .null := by simp [parentCursor, hf]
    have hn : JVal.null.truthy = false := rfl
    cases n with
    | zero => rfl
    | succ n =>
      rw [hp]
      simp only [parentLoop, hf, hn]
      rfl

theorem parentLoop_length (fetch : JVal → Option PageRef) :
    ∀ (n : Nat) (cur : JVal) (chain : List PageRef) (fetched : List JVal),
      (parentLoop fetch n cur chain fetched).1.length ≤ chain.length + n ∧
      (parentLoop fetch n cur chain fetched).2.length ≤ fetched.length + n
  | 0, _, _, _ => by simp [parentLoop]
  | n + 1, cur, chain, fetched => by
    by_cases hc : cur.truthy = true
    · cases hf : fetch cur with
      | none =>
        simp only [parentLoop, hc, hf, if_true, List.length_append, List.length_cons,
          List.length_nil]
        omega
      | some data =>
        have ih := parentLoop_length fetch n (parentCursor data.parent_id) (chain ++ [data])
          (fetched ++ [cur])
        simp only [parentLoop, hc, hf, if_true]
        simp only [List.length_append, List.length_cons, List.length_nil] at ih
        omega
    · simp only [parentLoop, hc]
      simp only [Bool.false_eq_true, if_false]
      omega

theorem parentLoop_walk (fetch : JVal → Option PageRef) :
    ∀ (n : Nat) (cur : JVal) (ps chain : List PageRef) (fetched : List JVal),
      IsWalk fetch cur ps →
      (ps.length = n ∨ (ps.length ≤ n ∧ WalkStops fetch (walkEnd cur ps))) →
      (parentLoop fetch n cur chain fetched).1 = chain ++ ps
  | 0, cur, ps, chain, fetched, _, h => by
    have hps : ps = [] := by
      rcases h with h | h
      · exact List.length_eq_zero.mp h
      · exact List.length_eq_zero.mp (Nat.le_zero.mp h.1)
    simp [parentLoop, hps]
  | n + 1, cur, [], chain, fetched, _, h => by
    rcases h with h | h
    · simp at h
    · rcases h.2 with hs | hs
      · simp only [walkEnd] at hs
        simp [parentLoop, hs]
      · simp only [walkEnd] at hs
        by_cases hc : cur.truthy = true
        · simp [parentLoop, hc, hs]
        · simp [parentLoop, hc]
  | n + 1, cur, p :: ps, chain, fetched, hw, h => by
    obtain ⟨hc, hf, hrest⟩ := hw
    have h' : ps.length = n ∨ (ps.length ≤ n ∧ WalkStops fetch (walkEnd p.parent_id ps)) := by
      rcases h with h | h
      · left
        simpa using h
      · right
        exact ⟨by simpa using h.1, h.2⟩
    have ih := parentLoop_walk fetch n p.parent_id ps (chain ++ [p]) (fetched ++ [cur]) hrest h'
    simp only [parentLoop, hc, hf, if_true, parentLoop_cursor, ih]
    simp

/-! ## Theorems on the ancestor walk -/

/-- C18: if `ps` are the pages that following `parent_id` upward from the
parent of the start page fetches, one after the other, and the walk stops
after them (a page without parent, or a fetch that fails or finds nothing) or
they are 12, then `fetchParentChain` returns exactly these pages in reverse
fetch order: the root first and the immediate parent last when the walk
reaches a root, the ancestors collected so far when a fetch fails; the
function is total, so it always returns. -/
theorem parent_chain_is_walk (fetch : JVal → Option PageRef) (start : PageRef)
    (ps : List PageRef) (hwalk : IsWalk fetch start.parent_id ps)
    (hstop : ps.length = 12 ∨
      (ps.length ≤ 12 ∧ WalkStops fetch (walkEnd start.parent_id ps))) :
    (fetchParentChain fetch (some start)).1 = ps.reverse := by
  unfold fetchParentChain
  simp only [parentLoop_cursor]
  rw [parentLoop_walk fetch 12 start.parent_id ps [] [] hwalk hstop]
  simp

/-- Witness of C18 on `sampleFetch`: from a page under `leaf` the chain is
`root`, `mid`, `leaf`; from a page under `orphan`, whose parent cannot be
fetched, it is `orphan` alone. -/
theorem parent_chain_is_walk_witness :
    (fetchParentChain sampleFetch (some (pageRef "new" (.str "leaf")))).1 =
      [pageRef "leaf" (.str "mid"), pageRef "mid" (.str "root"), pageRef "root" .null].reverse ∧
    (fetchParentChain sampleFetch (some (pageRef "new" (.str "orphan")))).1 =
      [pageRef "orphan" (.str "gone")].reverse :=
  ⟨parent_chain_is_walk sampleFetch (pageRef "new" (.str "leaf")) _
      ⟨rfl, rfl, rfl, rfl, rfl, rfl, trivial⟩ (Or.inr ⟨by decide, Or.inl rfl⟩),
    parent_chain_is_walk sampleFetch (pageRef "new" (.str "orphan")) _
      ⟨rfl, rfl, trivial⟩ (Or.inr ⟨by decide, Or.inr rfl⟩)⟩

/-- C19: whatever the store, cycles and self-parents included,
`fetchParentChain` makes at most 12 fetches and returns at most 12 pages; for
a page that is its own parent it makes 12 fetches and returns 12 pages. -/
theorem parent_chain_bounded :
    (∀ (fetch : JVal → Option PageRef) (start : Option PageRef),
      (fetchParentChain fetch start).2.length ≤ 12 ∧
      (fetchParentChain fetch start).1.length ≤ 12) ∧
    (fetchParentChain sampleFetch (some (pageRef "loop" (.str "loop")))).2.length = 12 ∧
    (fetchParentChain sampleFetch (some (pageRef "loop" (.str "loop")))).1.length = 12 := by
  refine ⟨fun fetch start => ?_, rfl, rfl⟩
  unfold fetchParentChain
  have h := parentLoop_length fetch 12
    (match start with
      | some s => parentCursor s.parent_id
      | none => .null) [] []
  simp only [List.length_reverse, List.length_nil] at h ⊢
  omega

/-! ## Lemmas and theorems on saving -/

theorem writePage_calls (store : EditorStore) (st : EditorState) (data d : PagePayload)
    (h : EditorCall.insert d ∈ (writePage store st data).calls ∨
      ∃ id, EditorCall.update id d ∈ (writePage store st data).calls) :
    d = data := by
  unfold writePage at h
  cases hsel : st.selectedPage with
  | none =>
    simp only [hsel] at h
    rcases h with h | ⟨id, h⟩
    · simpa using h
    · simp at h
  | some sel =>
    simp only [hsel] at h
    rcases h with h | ⟨id, h⟩
    · simp at h
    · simp at h
      exact h.2

theorem savePage_write (env : EditorEnv) (store : EditorStore) (st : EditorState)
    (d : PagePayload)
    (h : EditorCall.insert d ∈ (savePage env store st).calls ∨
      ∃ id, EditorCall.update id d ∈ (savePage env store st).calls) :
    d = savePayload env st ∧ (env.isWriter && st.status == "published") = false := by
  unfold savePage at h
  by_cases h1 : jsTrim st.titleInput = ""
  · simp [h1] at h
  · by_cases h2 : finalSlug env st = ""
    · simp [h1, h2] at h
    · by_cases h3 : (env.isWriter && st.status == "published") = true
      · simp [h1, h2, h3] at h
      · have h3' : (env.isWriter && st.status == "published") = false := by simpa using h3
        simp only [h1, h2, h3', if_false] at h
        cases hc : store.slugCheck (finalSlug env st) with
        | error e => simp [hc] at h
        | ok existing =>
          simp only [hc] at h
          by_cases h4 : slugConflict existing st.selectedPage = true
          · simp [h4] at h
          · have h4' : slugConflict existing st.selectedPage = false := by simpa using h4
            simp only [h4', Bool.false_eq_true, if_false, List.mem_cons, reduceCtorEq,
              false_or] at h
            exact ⟨writePage_calls store st _ d h, h3'⟩

/-- C20: when the current role is writer, `savePage` with the status
`published` makes no call to the store at all, and whatever the status, every
payload that `savePage` inserts or updates has a status other than
`published`. -/
theorem writer_cannot_publish (env : EditorEnv) (store : EditorStore) (st : EditorState)
    (hw : env.isWriter = true) :
    (st.status = "published" → (savePage env store st).calls = []) ∧
    (∀ data : PagePayload,
      (EditorCall.insert data ∈ (savePage env store st).calls ∨
        ∃ id, EditorCall.update id data ∈ (savePage env store st).calls) →
      data.status ≠ "published") := by
  constructor
  · intro hs
    unfold savePage
    by_cases h1 : jsTrim st.titleInput = ""
    · simp [h1]
    · by_cases h2 : finalSlug env st = ""
      · simp [h1, h2]
      · simp [h1, h2, hw, hs]
  · intro data hdata hpub
    obtain ⟨hd, hguard⟩ := savePage_write env store st data hdata
    have hst : st.status = "published" := by
      rw [hd] at hpub
      exact hpub
    simp [hw, hst] at hguard

/-- Witness of C20: a writer's save of a page marked as published makes no
call; the same page as a draft is checked, inserted and the list reloaded. -/
theorem writer_cannot_publish_witness :
    writerEnv.isWriter = true ∧ writerState.status = "published" ∧
    (savePage writerEnv emptyStore writerState).calls = [] ∧
    (savePage writerEnv emptyStore { writerState with status := "draft" }).calls.length = 3 :=
  ⟨rfl, rfl, (writer_cannot_publish writerEnv emptyStore writerState rfl).1 rfl, by decide⟩

theorem writePage_state (store : EditorStore) (st : EditorState) (data : PagePayload) :
    (writePage store st data).state = { loadPages store st with isDirty := false } := by
  unfold writePage
  cases st.selectedPage <;> rfl

theorem savePage_title_missing (env : EditorEnv) (store : EditorStore) (st : EditorState)
    (h : jsTrim st.titleInput = "") :
    savePage env store st = ⟨[], [.titleMissing], st⟩ := by
  simp [savePage, h]

theorem savePage_slug_missing (env : EditorEnv) (store : EditorStore) (st : EditorState)
    (h1 : jsTrim st.titleInput ≠ "") (h2 : finalSlug env st = "") :
    savePage env store st = ⟨[], [.slugMissing], st⟩ := by
  simp [savePage, h1, h2]

theorem savePage_writer (env : EditorEnv) (store : EditorStore) (st : EditorState)
    (h1 : jsTrim st.titleInput ≠ "") (h2 : finalSlug env st ≠ "")
    (h3 : (env.isWriter && st.status == "published") = true) :
    savePage env store st = ⟨[], [.writerCannotPublish], st⟩ := by
  simp only [savePage, h1, h2, h3, if_false, if_true]

theorem savePage_check_failed (env : EditorEnv) (store : EditorStore) (st : EditorState)
    (h1 : jsTrim st.titleInput ≠ "") (h2 : finalSlug env st ≠ "")
    (h3 : (env.isWriter && st.status == "published") = false) (e : String)
    (h4 : store.slugCheck (finalSlug env st) = .error e) :
    savePage env store st = ⟨[.slugCheck (finalSlug env st)], [.slugCheckFailed], st⟩ := by
  simp only [savePage, h1, h2, h3, h4, if_false, Bool.false_eq_true]

theorem savePage_conflict (env : EditorEnv) (store : EditorStore) (st : EditorState)
    (h1 : jsTrim st.titleInput ≠ "") (h2 : finalSlug env st ≠ "")
    (h3 : (env.isWriter && st.status == "published") = false)
    (existing : Option (List JVal))
    (h4 : store.slugCheck (finalSlug env st) = .ok existing)
    (h5 : slugConflict existing st.selectedPage = true) :
    savePage env store st = ⟨[.slugCheck (finalSlug env st)], [.slugTaken], st⟩ := by
  simp only [savePage, h1, h2, h3, h4, h5, if_false, if_true, Bool.false_eq_true]

theorem savePage_written (env : EditorEnv) (store : EditorStore) (st : EditorState)
    (h1 : jsTrim st.titleInput ≠ "") (h2 : finalSlug env st ≠ "")
    (h3 : (env.isWriter && st.status == "published") = false)
    (existing : Option (List JVal))
    (h4 : store.slugCheck (finalSlug env st) = .ok existing)
    (h5 : slugConflict existing st.selectedPage = false) :
    savePage env store st =
      ⟨.slugCheck (finalSlug env st) :: (writePage store st (savePayload env st)).calls,
        (writePage store st (savePayload env st)).notices,
        (writePage store st (savePayload env st)).state⟩ := by
  simp only [savePage, h1, h2, h3, h4, h5, if_false, Bool.false_eq_true]

theorem slugConflict_iff (existing : Option (List JVal)) (selectedPage : Option StoredPage) :
    slugConflict existing selectedPage = true ↔
      ∃ row rest, existing = some (row :: rest) ∧
        (selectedPage = none ∨ ∃ sel, selectedPage = some sel ∧ row.strictEq sel.id = false) := by
  unfold slugConflict
  cases existing with
  | none => simp
  | some rows =>
    cases rows with
    | nil => simp
    | cons row rest =>
      cases selectedPage with
      | none => simp
      | some sel => simp

theorem writePage_notices (store : EditorStore) (st : EditorState) (data : PagePayload) :
    Notice.slugTaken ∉ (writePage store st data).notices := by
  unfold writePage
  cases st.selectedPage with
  | none =>
    simp only [List.mem_singleton]
    cases store.insert data <;> simp
  | some sel =>
    simp only [List.mem_singleton]
    cases store.update sel.id data <;> simp

/-- Outcomes of `savePage` that leave the editor as it was and write nothing. -/
theorem savePage_aborted (env : EditorEnv) (store : EditorStore) (st : EditorState)
    (calls : List EditorCall) (notices : List Notice)
    (h : savePage env store st = ⟨calls, notices, st⟩)
    (hc : calls = [] ∨ calls = [.slugCheck (finalSlug env st)]) :
    (∀ data, EditorCall.insert data ∉ (savePage env store st).calls) ∧
    (∀ id data, EditorCall.update id data ∉ (savePage env store st).calls) ∧
    (savePage env store st).state = st := by
  rw [h]
  rcases hc with hc | hc <;> simp [hc]

/-! ## Theorems on the editor -/

/-- C21: when the trimmed title is empty, or the slug field is blank and the
slug of the title is empty, or the uniqueness check finds a row whose id
differs from the selected page's (any row when no page is selected),
`savePage` makes no insert and no update and leaves the whole editor state
(selected page, dirty flag, page list, builder sections, form fields) as it
was. -/
theorem validation_failure_aborts (env : EditorEnv) (store : EditorStore) (st : EditorState)
    (h : jsTrim st.titleInput = "" ∨
      (jsTrim st.slugInput = "" ∧
        slugify env.toLowerCase env.normalizeNFKD (jsTrim st.titleInput) = "") ∨
      (∃ row rest, store.slugCheck (finalSlug env st) = .ok (some (row :: rest)) ∧
        ∀ sel, st.selectedPage = some sel → row.strictEq sel.id = false)) :
    (∀ data, EditorCall.insert data ∉ (savePage env store st).calls) ∧
    (∀ id data, EditorCall.update id data ∉ (savePage env store st).calls) ∧
    (savePage env store st).state = st := by
  by_cases h1 : jsTrim st.titleInput = ""
  · exact savePage_aborted env store st _ _ (savePage_title_missing env store st h1) (Or.inl rfl)
  · by_cases h2 : finalSlug env st = ""
    · exact savePage_aborted env store st _ _ (savePage_slug_missing env store st h1 h2)
        (Or.inl rfl)
    · by_cases h3 : (env.isWriter && st.status == "published") = true
      · exact savePage_aborted env store st _ _ (savePage_writer env store st h1 h2 h3)
          (Or.inl rfl)
      · have h3' : (env.isWriter && st.status == "published") = false := by simpa using h3
        rcases h with h | h | h
        · exact absurd h h1
        · exfalso
          apply h2
          simp [finalSlug, h.1, h.2]
        · obtain ⟨row, rest, hcheck, hdiff⟩ := h
          have h5 : slugConflict (some (row :: rest)) st.selectedPage = true := by
            rw [slugConflict_iff]
            refine ⟨row, rest, rfl, ?_⟩
            cases hsel : st.selectedPage with
            | none => exact Or.inl rfl
            | some sel => exact Or.inr ⟨sel, rfl, hdiff sel hsel⟩
          exact savePage_aborted env store st _ _
            (savePage_conflict env store st h1 h2 h3' _ hcheck h5) (Or.inr rfl)

/-- Witness of C21: the slug `orta-cag-tarihi` belongs to the page `p2` while
`p1` is selected; the save stops after the check and the editor, dirty flag
included, is unchanged. -/
theorem validation_failure_aborts_witness :
    takenStore.slugCheck (finalSlug adminEnv dirtyState) = .ok (some [.str "p2"]) ∧
    (∀ data, EditorCall.insert data ∉ (savePage adminEnv takenStore dirtyState).calls) ∧
    (∀ id data, EditorCall.update id data ∉ (savePage adminEnv takenStore dirtyState).calls) ∧
    (savePage adminEnv takenStore dirtyState).state = dirtyState ∧
    (savePage adminEnv takenStore dirtyState).state.isDirty = true :=
  have h := validation_failure_aborts adminEnv takenStore dirtyState
    (Or.inr (Or.inr ⟨.str "p2", [], rfl, fun sel hsel => by
      have : sel = storedPage "p1" "Orta Çağ" "orta-cag" := (Option.some.inj hsel).symm
      rw [this]
      rfl⟩))
  ⟨rfl, h.1, h.2.1, h.2.2, by rw [h.2.2]; rfl⟩

/-- C22, evaluated where it fails: the editor holds unsaved changes to the
selected page, the update returns an error and the reloaded page list is the
old one; `savePage` reports the failure and still clears the dirty flag, so
the editor is not in its pre-save state. -/
theorem failed_write_clears_dirty :
    dirtyState.isDirty = true ∧
    (savePage adminEnv failingStore dirtyState).notices =
      [.writeFailed "permission denied"] ∧
    (savePage adminEnv failingStore dirtyState).calls.length = 3 ∧
    (savePage adminEnv failingStore dirtyState).state.isDirty = false ∧
    (savePage adminEnv failingStore dirtyState).state ≠ dirtyState := by
  have hd : (savePage adminEnv failingStore dirtyState).state.isDirty = false := by decide
  refine ⟨rfl, by decide, by decide, hd, fun h => ?_⟩
  rw [h] at hd
  exact absurd hd (by decide)

/-- C23, as stated, fails: the page `p1` was created by `u1`; when `u2` saves
it, the update that `savePage` sends carries `author_id = u2`. -/
theorem update_overwrites_author :
    ∃ data : PagePayload,
      EditorCall.update (.str "p1") data ∈ (savePage adminEnv emptyStore dirtyState).calls ∧
      data.author_id.strictEq (.str "u2") = true ∧
      data.author_id.strictEq (.str "u1") = false :=
  ⟨savePayload adminEnv dirtyState, by
    have h : (savePage adminEnv emptyStore dirtyState).calls =
        [.slugCheck (finalSlug adminEnv dirtyState),
          .update (.str "p1") (savePayload adminEnv dirtyState), .loadPages] := by
      rw [savePage_written adminEnv emptyStore dirtyState (by decide) (by decide) (by decide)
        (some []) rfl rfl]
      rfl
    rw [h]
    simp, rfl, rfl⟩

/-- C23, amended: every update and every insert that `savePage` sends carries
as `author_id` the id of the identity that performs the save. -/
theorem write_author_is_saver (env : EditorEnv) (store : EditorStore) (st : EditorState) :
    (∀ id data, EditorCall.update id data ∈ (savePage env store st).calls →
      data.author_id = env.userId) ∧
    (∀ data, EditorCall.insert data ∈ (savePage env store st).calls →
      data.author_id = env.userId) := by
  constructor
  · intro id data h
    rw [(savePage_write env store st data (Or.inr ⟨id, h⟩)).1]
    rfl
  · intro data h
    rw [(savePage_write env store st data (Or.inl h)).1]
    rfl

theorem savePage_check_made (env : EditorEnv) (store : EditorStore) (st : EditorState) :
    EditorCall.slugCheck (finalSlug env st) ∈ (savePage env store st).calls ↔
      (jsTrim st.titleInput ≠ "" ∧ finalSlug env st ≠ "" ∧
        (env.isWriter && st.status == "published") = false) := by
  by_cases h1 : jsTrim st.titleInput = ""
  · rw [savePage_title_missing env store st h1]
    simp [h1]
  · by_cases h2 : finalSlug env st = ""
    · rw [savePage_slug_missing env store st h1 h2]
      simp [h2]
    · by_cases h3 : (env.isWriter && st.status == "published") = true
      · rw [savePage_writer env store st h1 h2 h3]
        simp [h3]
      · have h3' : (env.isWriter && st.status == "published") = false := by simpa using h3
        cases h4 : store.slugCheck (finalSlug env st) with
        | error e =>
          rw [savePage_check_failed env store st h1 h2 h3' e h4]
          exact ⟨fun _ => ⟨h1, h2, h3'⟩, fun _ => List.mem_singleton.mpr rfl⟩
        | ok existing =>
          by_cases h5 : slugConflict existing st.selectedPage = true
          · rw [savePage_conflict env store st h1 h2 h3' existing h4 h5]
            exact ⟨fun _ => ⟨h1, h2, h3'⟩, fun _ => List.mem_singleton.mpr rfl⟩
          · have h5' : slugConflict existing st.selectedPage = false := by simpa using h5
            rw [savePage_written env store st h1 h2 h3' existing h4 h5']
            exact ⟨fun _ => ⟨h1, h2, h3'⟩, fun _ => List.mem_cons_self _ _⟩

theorem savePage_slugTaken (env : EditorEnv) (store : EditorStore) (st : EditorState) :
    Notice.slugTaken ∈ (savePage env store st).notices ↔
      (jsTrim st.titleInput ≠ "" ∧ finalSlug env st ≠ "" ∧
        (env.isWriter && st.status == "published") = false) ∧
      ∃ existing, store.slugCheck (finalSlug env st) = .ok existing ∧
        slugConflict existing st.selectedPage = true := by
  by_cases h1 : jsTrim st.titleInput = ""
  · rw [savePage_title_missing env store st h1]
    simp [h1]
  · by_cases h2 : finalSlug env st = ""
    · rw [savePage_slug_missing env store st h1 h2]
      simp [h2]
    · by_cases h3 : (env.isWriter && st.status == "published") = true
      · rw [savePage_writer env store st h1 h2 h3]
        simp [h3]
      · have h3' : (env.isWriter && st.status == "published") = false := by simpa using h3
        cases h4 : store.slugCheck (finalSlug env st) with
        | error e =>
          rw [savePage_check_failed env store st h1 h2 h3' e h4]
          simp
        | ok existing =>
          by_cases h5 : slugConflict existing st.selectedPage = true
          · rw [savePage_conflict env store st h1 h2 h3' existing h4 h5]
            exact ⟨fun _ => ⟨⟨h1, h2, h3'⟩, existing, rfl, h5⟩,
              fun _ => List.mem_singleton.mpr rfl⟩
          · have h5' : slugConflict existing st.selectedPage = false := by simpa using h5
            rw [savePage_written env store st h1 h2 h3' existing h4 h5']
            constructor
            · intro h
              exact absurd h (writePage_notices store st _)
            · rintro ⟨_, existing', he, hconf⟩
              injection he with he
              rw [← he, h5'] at hconf
              exact absurd hconf (by simp)

theorem savePage_own_row (env : EditorEnv) (store : EditorStore) (st : EditorState)
    (sel : StoredPage) (row : JVal) (rest : List JVal)
    (h1 : jsTrim st.titleInput ≠ "") (h2 : finalSlug env st ≠ "")
    (h3 : (env.isWriter && st.status == "published") = false)
    (hsel : st.selectedPage = some sel)
    (hcheck : store.slugCheck (finalSlug env st) = .ok (some (row :: rest)))
    (hid : row.strictEq sel.id = true) :
    (savePage env store st).calls =
      [.slugCheck (finalSlug env st), .update sel.id (savePayload env st), .loadPages] := by
  have h5 : slugConflict (some (row :: rest)) st.selectedPage = false := by
    simp [slugConflict, hsel, hid]
  rw [savePage_written env store st h1 h2 h3 _ hcheck h5]
  simp [writePage, hsel]

/-- C24: `savePage` makes the existence check exactly when the title, the slug
and the role pass their guards; it reports a slug conflict exactly when they
pass and the check returns a row and either no page is selected or the id of
the returned row differs from the id of the selected page; when the returned
row is the selected page itself, no conflict is reported and the update of
that page is sent. -/
theorem slug_conflict_exact (env : EditorEnv) (store : EditorStore) (st : EditorState) :
    (EditorCall.slugCheck (finalSlug env st) ∈ (savePage env store st).calls ↔
      (jsTrim st.titleInput ≠ "" ∧ finalSlug env st ≠ "" ∧
        (env.isWriter && st.status == "published") = false)) ∧
    (Notice.slugTaken ∈ (savePage env store st).notices ↔
      (jsTrim st.titleInput ≠ "" ∧ finalSlug env st ≠ "" ∧
        (env.isWriter && st.status == "published") = false) ∧
      ∃ row rest, store.slugCheck (finalSlug env st) = .ok (some (row :: rest)) ∧
        (st.selectedPage = none ∨
          ∃ sel, st.selectedPage = some sel ∧ row.strictEq sel.id = false)) ∧
    (∀ sel row rest, jsTrim st.titleInput ≠ "" → finalSlug env st ≠ "" →
      (env.isWriter && st.status == "published") = false →
      st.selectedPage = some sel →
      store.slugCheck (finalSlug env st) = .ok (some (row :: rest)) →
      row.strictEq sel.id = true →
      Notice.slugTaken ∉ (savePage env store st).notices ∧
      (savePage env store st).calls =
        [.slugCheck (finalSlug env st), .update sel.id (savePayload env st), .loadPages]) := by
  refine ⟨savePage_check_made env store st, ?_, ?_⟩
  · rw [savePage_slugTaken]
    constructor
    · rintro ⟨hg, existing, he, hconf⟩
      obtain ⟨row, rest, hex, hsel⟩ := (slugConflict_iff existing st.selectedPage).mp hconf
      exact ⟨hg, row, rest, by rw [he, hex], hsel⟩
    · rintro ⟨hg, row, rest, he, hsel⟩
      exact ⟨hg, some (row :: rest), he, (slugConflict_iff _ _).mpr ⟨row, rest, rfl, hsel⟩⟩
  · intro sel row rest h1 h2 h3 hsel he hid
    refine ⟨fun hmem => ?_, savePage_own_row env store st sel row rest h1 h2 h3 hsel he hid⟩
    obtain ⟨_, existing, he', hconf⟩ := (savePage_slugTaken env store st).mp hmem
    rw [he] at he'
    injection he' with he'
    rw [← he', hsel] at hconf
    simp [slugConflict, hid] at hconf

/-- Witness of C24: with the page `p1` selected, a check that returns the row
`p2` ends the save with the conflict notice and without a write; a check that
returns the row `p1` itself gives no conflict and the update of `p1` is sent. -/
theorem slug_conflict_exact_witness :
    Notice.slugTaken ∈ (savePage adminEnv takenStore dirtyState).notices ∧
    (savePage adminEnv takenStore dirtyState).calls =
      [.slugCheck (finalSlug adminEnv dirtyState)] ∧
    Notice.slugTaken ∉ (savePage adminEnv ownStore dirtyState).notices ∧
    (savePage adminEnv ownStore dirtyState).calls =
      [.slugCheck (finalSlug adminEnv dirtyState),
        .update (.str "p1") (savePayload adminEnv dirtyState), .loadPages] :=
  have hg : jsTrim dirtyState.titleInput ≠ "" ∧ finalSlug adminEnv dirtyState ≠ "" ∧
      (adminEnv.isWriter && dirtyState.status == "published") = false :=
    ⟨by decide, by decide, by decide⟩
  have hown := (slug_conflict_exact adminEnv ownStore dirtyState).2.2
    (storedPage "p1" "Orta Çağ" "orta-cag") (.str "p1") [] hg.1 hg.2.1 hg.2.2 rfl rfl rfl
  ⟨(slug_conflict_exact adminEnv takenStore dirtyState).2.1.mpr
      ⟨hg, .str "p2", [], rfl, Or.inr ⟨storedPage "p1" "Orta Çağ" "orta-cag", rfl, rfl⟩⟩,
    congrArg SaveOutcome.calls
      (savePage_conflict adminEnv takenStore dirtyState hg.1 hg.2.1 hg.2.2 _ rfl rfl),
    hown.1, hown.2⟩

/-- C25: a title edit with the lock on sets the slug field to the slug of the
trimmed title and leaves the lock on; a title edit with the lock off leaves
the slug field unchanged; a manual slug edit leaves the lock off; selecting a
stored page with a string title and a string slug sets the lock, when the
page has one, to true exactly when the stored slug equals the slug of the
stored title. -/
theorem slug_lock_coupling (env : EditorEnv) (st : EditorState) (value : String) :
    (st.slugLock = some true →
      (onTitleInput env value st).slugInput =
        slugify env.toLowerCase env.normalizeNFKD (jsTrim value) ∧
      (onTitleInput env value st).slugLock = some true) ∧
    (st.slugLock ≠ some true →
      (onTitleInput env value st).slugInput = st.slugInput ∧
      (onTitleInput env value st).slugLock = st.slugLock) ∧
    ((onSlugInput value st).slugLock ≠ some true ∧
      (st.slugLock ≠ none → (onSlugInput value st).slugLock = some false)) ∧
    (∀ (jsString : JVal → String) (jsonParse : JVal → Option JVal) (page : StoredPage)
      (title slug : String) (lock : Bool),
      (∀ s, jsString (.str s) = s) → page.title = .str title → page.slug = .str slug →
      st.slugLock = some lock →
      ((selectPage env jsString jsonParse page st).slugLock = some true ↔
        slug = slugify env.toLowerCase env.normalizeNFKD title) ∧
      ((selectPage env jsString jsonParse page st).slugLock = some false ↔
        slug ≠ slugify env.toLowerCase env.normalizeNFKD title)) := by
  refine ⟨fun h => ?_, fun h => ?_, ⟨?_, fun h => ?_⟩, ?_⟩
  · simp [onTitleInput, h]
  · simp [onTitleInput, h]
  · by_cases h : st.slugLock = some true
    · simp [onSlugInput, h]
    · simp [onSlugInput, h]
  · cases hl : st.slugLock with
    | none => exact absurd hl h
    | some b => cases b <;> simp [onSlugInput, hl]
  · intro jsString jsonParse page title slug lock hstr ht hs hl
    have horT : (JVal.str title).orElse (.str "") = .str title := orElse_str_empty title
    have horS : (JVal.str slug).orElse (.str "") = .str slug := orElse_str_empty slug
    simp only [selectPage, hl, ht, hs, horT, horS, hstr, Option.map_some', JVal.strictEq]
    simp

/-! ## Theorems on the recently visited pages -/

theorem updateRecentVisited_eq (slug title visitedAt : JVal) (items : List JVal) :
    updateRecentVisited slug title visitedAt (.arr items) =
      visitRecord slug title visitedAt :: (items.filter (keepVisit slug)).take 19 := by
  unfold updateRecentVisited
  simp only [List.length_cons]
  by_cases h : (items.filter (keepVisit slug)).length + 1 > 20
  · simp [h]
  · simp only [h, if_false]
    rw [List.take_of_length_le (by omega)]

theorem updateRecentVisited_other (slug title visitedAt arr : JVal)
    (h : ∀ items, arr ≠ .arr items) :
    updateRecentVisited slug title visitedAt arr = [visitRecord slug title visitedAt] := by
  unfold updateRecentVisited
  cases arr <;> first | exact absurd rfl (h _) | simp

/-- C26: the updated list starts with the record of the visited page; no
other entry has the slug of the visited page; the other entries are the
stored entries with another slug, in their stored order, as far as 20 entries
allow; the list has at most 20 entries.  Visiting `a`, `b` and `a` again from
the empty list gives the slugs `a`, `b`. -/
theorem recent_visit_update :
    (∀ slug title visitedAt arr : JVal,
      (updateRecentVisited slug title visitedAt arr).head? =
        some (visitRecord slug title visitedAt) ∧
      (∀ it ∈ (updateRecentVisited slug title visitedAt arr).tail,
        ((it.getProp "slug").getD .undefined).strictEq slug = false) ∧
      (updateRecentVisited slug title visitedAt arr).length ≤ 20 ∧
      (∀ items, arr = .arr items →
        (updateRecentVisited slug title visitedAt arr).tail =
          (items.filter (keepVisit slug)).take 19 ∧
        List.Sublist (updateRecentVisited slug title visitedAt arr).tail items)) ∧
    (visit "a" 3 (visit "b" 2 (visit "a" 1 []))).map slugText = ["a", "b"] := by
  refine ⟨fun slug title visitedAt arr => ?_, by decide⟩
  by_cases harr : ∃ items, arr = .arr items
  · obtain ⟨items, rfl⟩ := harr
    rw [updateRecentVisited_eq]
    refine ⟨rfl, ?_, ?_, ?_⟩
    · intro it hit
      have hmem : it ∈ items.filter (keepVisit slug) := List.mem_of_mem_take hit
      have hk := (List.mem_filter.mp hmem).2
      simp only [keepVisit, Bool.and_eq_true, Bool.not_eq_true'] at hk
      exact hk.2
    · simp only [List.length_cons, List.length_take]
      omega
    · intro items' h
      injection h with h
      subst h
      exact ⟨rfl, (List.take_sublist _ _).trans (List.filter_sublist _)⟩
  · have hne : ∀ items, arr ≠ .arr items := fun items h => harr ⟨items, h⟩
    rw [updateRecentVisited_other slug title visitedAt arr hne]
    refine ⟨rfl, by simp, by simp, fun items h => absurd h (hne items)⟩

/-! ## Theorems on un-escaping anchors -/

/-- C27, evaluated where it fails: the escaped anchor with the address
`javajavascript:script:alert(1)` is un-escaped to an anchor with the address
`javascript:alert(1)`, since the one pass that removes `javascript:` joins
what stood around it; a plain `javascript:` address and a handler are
removed. -/
theorem javascript_survives_unescape :
    unescapeAnchorsOnly nestedJavascript = utf16 "<a href=\"javascript:alert(1)\">x</a>" ∧
    safeAttrs (utf16 " href=\"javajavascript:script:alert(1)\"") =
      utf16 " href=\"javascript:alert(1)\"" ∧
    includes (safeAttrs (utf16 " href=\"javajavascript:script:alert(1)\""))
      (utf16 "javascript:") = true ∧
    unescapeAnchorsOnly plainJavascript = utf16 "a <a href=\"alert(1)\">b</a> c" := by
  refine ⟨by decide, by decide, by decide, by decide⟩

/-! ## Theorems on the title boost -/

set_option maxRecDepth 100000 in
theorem longTitlePage_values :
    includes (sampleEnv.toLowerCase (orEmpty longTitlePage.title))
      (sampleEnv.toLowerCase (utf16 "dragon")) = true ∧
    indexOf (sampleEnv.toLowerCase (orEmpty longTitlePage.title))
      (sampleEnv.toLowerCase (utf16 "dragon")) = 221 ∧
    sampleEnv.matchCount (sampleEnv.toLowerCase (utf16 "dragon"))
      (sampleEnv.toLowerCase (orEmpty longTitlePage.content)) = some 0 ∧
    baseScore sampleEnv (sampleEnv.toLowerCase (utf16 "dragon")) longTitlePage = some (-1) := by
  refine ⟨by decide, by decide, by decide, by decide⟩

/-- C28, evaluated where it fails: the title of `longTitlePage` contains the
query at index 221, so the title term is `220 - 221 = -1` and the page scores
`-1`, less than the `0` it would score without the title term. -/
theorem late_title_match_lowers_score :
    includes (sampleEnv.toLowerCase (orEmpty longTitlePage.title))
      (sampleEnv.toLowerCase (utf16 "dragon")) = true ∧
    indexOf (sampleEnv.toLowerCase (orEmpty longTitlePage.title))
      (sampleEnv.toLowerCase (utf16 "dragon")) = 221 ∧
    sampleEnv.matchCount (sampleEnv.toLowerCase (utf16 "dragon"))
      (sampleEnv.toLowerCase (orEmpty longTitlePage.content)) = some 0 ∧
    baseScore sampleEnv (sampleEnv.toLowerCase (utf16 "dragon")) longTitlePage = some (-1) :=
  longTitlePage_values

/-! ## Theorems on load-then-save -/

theorem decodeField_encodeField_kept {f : Field} (h : keepField f = true) :
    decodeField (encodeField f) = some f := by
  obtain ⟨key, value⟩ := f
  simp only [keepField, Bool.and_eq_true, Bool.or_eq_true] at h
  obtain ⟨hk, hv⟩ := h
  have hkey : key.orElse (.str "") = key := by simp [JVal.orElse, hk]
  have hval : value.orElse (.str "") = value := by
    rcases hv with hv | hv
    · simp [JVal.orElse, hv]
    · cases value <;> simp [JVal.isEmptyStr] at hv
      subst hv
      rfl
  simp [decodeField, encodeField, JVal.getProp, JVal.lookup, hkey, hval]

theorem decodeFields_kept (fs : List Field) :
    decodeFields (.arr ((fs.filter keepField).map encodeField)) =
      some (fs.filter keepField) := by
  simp only [decodeFields, mapThrowing_map]
  have := mapThrowing_eq_some_map (f := fun a => decodeField (encodeField a)) (g := id)
    (fs.filter keepField)
    (fun a ha => decodeField_encodeField_kept (List.mem_filter.mp ha).2)
  simpa using this

theorem decodeSection_encodeSection_any (sec : Section) :
    decodeSection (encodeSection sec) = some sec.reloaded := by
  obtain ⟨title, image, fields⟩ := sec
  have hfs : mapThrowing decodeField ((fields.filter keepField).map encodeField) =
      some (fields.filter keepField) := by
    simpa [decodeFields] using decodeFields_kept fields
  have hu : JVal.undefined.truthy = false := rfl
  by_cases h1 : title.truthy = true <;> by_cases h2 : image.truthy = true <;>
    by_cases h3 : fields = [] <;>
    simp [decodeSection, encodeSection, JVal.getProp, JVal.lookup, Section.reloaded, h1, h2, h3,
      hfs, decodeFields, JVal.orElse, JVal.objectEntries, hu]

theorem encodeSection_reloaded (sec : Section)
    (h : sec.fields = [] ∨ sec.fields.filter keepField ≠ []) :
    encodeSection sec.reloaded = encodeSection sec := by
  obtain ⟨title, image, fields⟩ := sec
  have hne : fields.filter keepField ≠ [] → fields ≠ [] := by
    intro hf h0
    rw [h0] at hf
    exact hf rfl
  have hstr : (JVal.str "").truthy = false := rfl
  simp only at h
  by_cases h1 : title.truthy = true <;> by_cases h2 : image.truthy = true <;>
    rcases h with h3 | h3 <;>
    simp [encodeSection, Section.reloaded, h1, h2, h3, hne, hstr, List.filter_filter]

theorem load_encode (jsonParse : JVal → Option JVal) (secs : List Section) :
    loadSidebarIntoBuilder jsonParse (encodeSidebarInfo secs) =
      some (secs.map Section.reloaded) := by
  match secs with
  | [] => rfl
  | [s] =>
    rw [encodeSidebarInfo_single]
    have h := decodeSection_encodeSection_any s
    unfold encodeSection at h ⊢
    rw [load_obj, h]
    rfl
  | s1 :: s2 :: rest =>
    rw [encodeSidebarInfo_cons_cons, load_arr, mapThrowing_map]
    exact mapThrowing_eq_some_map _ (fun a _ => decodeSection_encodeSection_any a)

theorem encodeSidebarInfo_congr (xs ys : List Section)
    (h : xs.map encodeSection = ys.map encodeSection) :
    encodeSidebarInfo xs = encodeSidebarInfo ys := by
  unfold encodeSidebarInfo
  simp only [h]

/-- C29, as stated, fails: a section whose only field has an empty key is
stored as `{ fields: [] }`; loaded and saved again it is stored as `{}`. -/
theorem reload_changes_empty_fields :
    encodeSidebarInfo [blankFieldSection] = .obj [("fields", .arr [])] ∧
    (loadSidebarIntoBuilder (fun _ => none) (encodeSidebarInfo [blankFieldSection])).map
      encodeSidebarInfo = some (.obj []) ∧
    (loadSidebarIntoBuilder (fun _ => none) (encodeSidebarInfo [blankFieldSection])).map
      encodeSidebarInfo ≠ some (encodeSidebarInfo [blankFieldSection]) := by
  have h1 : encodeSidebarInfo [blankFieldSection] = .obj [("fields", .arr [])] := by
    simp [encodeSidebarInfo, encodeSection, blankFieldSection, JVal.truthy, keepField]
  have h2 : (loadSidebarIntoBuilder (fun _ => none)
      (encodeSidebarInfo [blankFieldSection])).map encodeSidebarInfo = some (.obj []) := by
    rw [load_encode]
    simp [encodeSidebarInfo, encodeSection, Section.reloaded, blankFieldSection, JVal.truthy,
      keepField]
  refine ⟨h1, h2, ?_⟩
  rw [h2, h1]
  simp

/-- C29, amended: for every builder section list in which each section with
fields keeps at least one of them through the filter of the encoder, loading
the stored value and encoding the result gives the stored value again. -/
theorem encode_stable_after_reload (jsonParse : JVal → Option JVal) (secs : List Section)
    (h : ∀ s ∈ secs, s.fields = [] ∨ s.fields.filter keepField ≠ []) :
    (loadSidebarIntoBuilder jsonParse (encodeSidebarInfo secs)).map encodeSidebarInfo =
      some (encodeSidebarInfo secs) := by
  rw [load_encode]
  simp only [Option.map_some', Option.some.injEq]
  apply encodeSidebarInfo_congr
  rw [List.map_map]
  exact List.map_congr_left (fun s hs => encodeSection_reloaded s (h s hs))

/-- Witness of C29 on `sampleSections`. -/
theorem encode_stable_after_reload_witness :
    (∀ s ∈ sampleSections, s.fields = [] ∨ s.fields.filter keepField ≠ []) ∧
    (loadSidebarIntoBuilder (fun _ => none) (encodeSidebarInfo sampleSections)).map
      encodeSidebarInfo = some (encodeSidebarInfo sampleSections) :=
  have h : ∀ s ∈ sampleSections, s.fields = [] ∨ s.fields.filter keepField ≠ [] := by
    simp [sampleSections, keepField, JVal.truthy]
  ⟨h, encode_stable_after_reload _ sampleSections h⟩

/-! ## Theorems on dropping a section -/

theorem getElem?_insertIdx_self (x : α) (l : List α) (n : Nat) (h : n ≤ l.length) :
    (l.insertIdx n x)[n]? = some x := by
  induction l generalizing n with
  | nil =>
    have h0 : n = 0 := by simpa using h
    subst h0
    simp
  | cons a t ih =>
    cases n with
    | zero => simp
    | succ m =>
      have hm : m ≤ t.length := by simpa using h
      simpa [List.insertIdx_succ_cons] using ih m hm

theorem getElem?_insertIdx_succ (x : α) (l : List α) (n : Nat) :
    (l.insertIdx n x)[n + 1]? = l[n]? := by
  induction l generalizing n with
  | nil => cases n <;> simp [List.insertIdx]
  | cons a t ih =>
    cases n with
    | zero => simp
    | succ m => simpa [List.insertIdx_succ_cons] using ih m

theorem perm_cons_eraseIdx (x : α) (l : List α) (i : Nat) (h : l[i]? = some x) :
    (x :: l.eraseIdx i).Perm l := by
  induction l generalizing i with
  | nil => simp at h
  | cons a t ih =>
    cases i with
    | zero =>
      have ha : a = x := by simpa using h
      subst ha
      simp
    | succ m =>
      have hm : t[m]? = some x := by simpa using h
      have h1 : (x :: a :: t.eraseIdx m).Perm (a :: x :: t.eraseIdx m) := List.Perm.swap _ _ _
      exact h1.trans ((ih m hm).cons a)

/-- C30: for valid indices `source ≠ target`, the drop handler returns a list
that is a permutation of the input of the same length; taking the moved
section out of the result and out of the input leaves the same list, so the
other sections keep their order; the moved section stands at index `k`
(`target - 1` when moving down, `target` when moving up) and the section that
was at `target` stands right after it, at `k + 1`. -/
theorem section_drop_before_target (l : List α) (source target : Nat)
    (hs : source < l.length) (ht : target < l.length) (hne : source ≠ target) :
    ∃ out, dropSection source target l = some out ∧
      out.Perm l ∧ out.length = l.length ∧
      out.eraseIdx (if source < target then target - 1 else target) = l.eraseIdx source ∧
      out[if source < target then target - 1 else target]? = l[source]? ∧
      out[(if source < target then target - 1 else target) + 1]? = l[target]? := by
  have hx : l[source]? = some (l.get ⟨source, hs⟩) := by simp
  have hlen : (l.eraseIdx source).length = l.length - 1 := List.length_eraseIdx_of_lt hs
  have hk : (if source < target then target - 1 else target) ≤ (l.eraseIdx source).length := by
    rw [hlen]
    split <;> omega
  have hmin : min (if source < target then target - 1 else target)
      (l.eraseIdx source).length = (if source < target then target - 1 else target) :=
    Nat.min_eq_left hk
  refine ⟨(l.eraseIdx source).insertIdx (if source < target then target - 1 else target)
    (l.get ⟨source, hs⟩), ?_, ?_, ?_, ?_, ?_, ?_⟩
  · simp only [dropSection, if_neg hne, hx, hmin]
  · exact (List.perm_insertIdx _ _ hk).trans (perm_cons_eraseIdx _ _ _ hx)
  · rw [List.length_insertIdx _ _ hk, hlen]
    omega
  · exact List.eraseIdx_insertIdx _ _
  · rw [getElem?_insertIdx_self _ _ _ hk, hx]
  · rw [getElem?_insertIdx_succ]
    by_cases hlt : source < target
    · rw [if_pos hlt, List.getElem?_eraseIdx_of_ge _ _ _ (by omega)]
      congr 1
      omega
    · rw [if_neg hlt, List.getElem?_eraseIdx_of_lt _ _ _ (by omega)]

/-- Witness of C30: dragging the first of four sections onto the third. -/
theorem section_drop_before_target_witness :
    dropSection 0 2 ["a", "b", "c", "d"] = some ["b", "a", "c", "d"] ∧
    ∃ out, dropSection 0 2 ["a", "b", "c", "d"] = some out ∧
      out.Perm ["a", "b", "c", "d"] ∧ out.length = ["a", "b", "c", "d"].length ∧
      out.eraseIdx (if 0 < 2 then 2 - 1 else 2) = ["a", "b", "c", "d"].eraseIdx 0 ∧
      out[if 0 < 2 then 2 - 1 else 2]? = ["a", "b", "c", "d"][0]? ∧
      out[(if 0 < 2 then 2 - 1 else 2) + 1]? = ["a", "b", "c", "d"][2]? :=
  ⟨by decide, section_drop_before_target ["a", "b", "c", "d"] 0 2 (by decide) (by decide)
    (by decide)⟩

end Velmor
